import Mathlib

/-!
# eos-bios: the boot sequence of `bios.go`

A shallow embedding of `src/bios.go` and the properties of its role
resolution, roster shuffling, genesis document and boot-node stage 1.

Conventions of the embedding.

* A Go `string` is a sequence of bytes.  It is held in a Lean `String` with one
  `Char` per byte, so `String.length` is Go's `len` and slicing is by position.
* A Go slice is a `List`.  The pointers of `[]*ProducerDef` are taken to be
  non-nil.
* The collaborators reached through `b.API`, the key generator and the hook
  dispatcher are not part of `bios.go`; what they answer is supplied by an
  `Env`, and every call made on the ledger is recorded in a trace.
* A function either returns or panics; a panic is an outcome of its own (or
  `none` for the boolean role tests), never an error value.
-/

set_option linter.dupNamespace false

namespace Bios

/-! ## Data model -/

/-- The type `eos.Symbol`. -/
structure Symbol where
  Precision : Nat
  Symbol : String
deriving DecidableEq

/-- The type `eos.Asset`: an int64 amount and its symbol. -/
structure Asset where
  Amount : Int
  Symbol : Symbol
deriving DecidableEq

/-- Modelled from the spec: the declaration of `ProducerDef` is outside
`bios.go`.  An operator of the roster, with the fields `bios.go` reads: its
account name, its public key as text and the key `pubKey` given to
`NewAccount`. -/
structure ProducerDef where
  EOSIOAccountName : String
  EOSIOPublicKey : String
  pubKey : String
deriving DecidableEq

/-- Modelled from the spec: the declaration of `Snapshot` is outside `bios.go`.
One holder of the snapshot, with the fields `bios.go` reads: the external
address, the public key and the balance. -/
structure Holder where
  EthereumAddress : String
  EOSPublicKey : String
  Balance : Asset
deriving DecidableEq

/-- A `time.Time`: seconds since the Unix epoch, nanoseconds within the second
and the offset of its location in seconds east of UTC. -/
structure Time where
  unixSec : Int
  nsec : Nat
  zoneOffset : Int
deriving DecidableEq

/-- The method `Time.UTC`: the same instant, location set to UTC. -/
def Time.UTC (t : Time) : Time := { t with zoneOffset := 0 }

/-- Modelled from the spec: the declaration of `LaunchData` is outside
`bios.go`.  The launch file, of which `bios.go` reads the roster. -/
structure LaunchData where
  Producers : List ProducerDef
deriving DecidableEq

/-- Modelled from the spec: the declaration of `Config` is outside `bios.go`.
The local identity, with the fields `bios.go` reads. -/
structure ProducerConfig where
  MyAccount : String
deriving DecidableEq

/-- The field `Config.SystemContract`: the paths of the system contract. -/
structure SystemContract where
  CodePath : String
  ABIPath : String
deriving DecidableEq

/-- The struct `Config`, with the fields `bios.go` reads. -/
structure Config where
  NoShuffle : Bool
  Producer : ProducerConfig
  SystemContract : SystemContract
deriving DecidableEq

/-- The field `BIOS.ShuffleBlock`: the time and the entropy commitment of the
shuffle. -/
structure ShuffleBlock where
  Time : Time
  MerkleRoot : List UInt8
deriving DecidableEq

/-- The struct `BIOS`.  Of `API` the state keeps the field `ChainID`; the calls
made through `API` are answered by an `Env`. -/
structure BIOS where
  LaunchData : LaunchData
  Config : Config
  ChainID : List UInt8
  Snapshot : List Holder
  ShuffleBlock : ShuffleBlock
  ShuffledProducers : List ProducerDef
deriving DecidableEq

/-- A Go `error` value: `none` is `nil`, `some msg` an error with that text. -/
abbrev GoError := Option String

/-! ## Role resolution -/

/-- The loop of `MyProducerDef` over `b.LaunchData.Producers`: the first
producer whose account name is `MyAccount`, or the error `no config found`. -/
def MyProducerDef.loop (MyAccount : String) : List ProducerDef → Except String ProducerDef
  | [] => Except.error "no config found"
  | prod :: rest =>
    if MyAccount = prod.EOSIOAccountName then Except.ok prod
    else MyProducerDef.loop MyAccount rest

/-- The method `BIOS.MyProducerDef`. -/
def BIOS.MyProducerDef (b : BIOS) : Except String ProducerDef :=
  MyProducerDef.loop b.Config.Producer.MyAccount b.LaunchData.Producers

/-- The method `BIOS.IsBootNode`.  Indexing an empty `ShuffledProducers` panics:
`none`. -/
def BIOS.IsBootNode (b : BIOS) (account : String) : Option Bool :=
  match b.ShuffledProducers[0]? with
  | none => none
  | some p => some (decide (p.EOSIOAccountName = account))

/-- The loop of `IsAppointedBlockProducer`,
`for ; i < 22 && len(b.ShuffledProducers) > i; i++`, run for at most `fuel`
iterations. -/
def IsAppointedBlockProducer.loop (sp : List ProducerDef) (account : String) :
    Nat → Nat → Bool
  | 0, _ => false
  | fuel + 1, i =>
    if i < 22 ∧ sp.length > i then
      match sp[i]? with
      | some p =>
        if p.EOSIOAccountName = account then true
        else IsAppointedBlockProducer.loop sp account fuel (i + 1)
      | none => false
    else false

/-- The method `BIOS.IsAppointedBlockProducer`.  The loop starts at `i = 1` and
stops at `i = 22` at the latest, within the 22 iterations given here. -/
def BIOS.IsAppointedBlockProducer (b : BIOS) (account : String) : Bool :=
  IsAppointedBlockProducer.loop b.ShuffledProducers account 22 1

/-- The method `BIOS.AmIBootNode`. -/
def BIOS.AmIBootNode (b : BIOS) : Option Bool :=
  b.IsBootNode b.Config.Producer.MyAccount

/-- The method `BIOS.AmIAppointedBlockProducer`. -/
def BIOS.AmIAppointedBlockProducer (b : BIOS) : Bool :=
  b.IsAppointedBlockProducer b.Config.Producer.MyAccount

/-- The three branches of `Run`. -/
inductive Role where
  | Origin
  | Delegate
  | Follower
deriving DecidableEq

/-- The branch `Run` takes for an account: `RunBootNodeStage1` when
`IsBootNode`, else `RunABPStage1` when `IsAppointedBlockProducer`, else
`WaitStage1End`.  It is `none` when `IsBootNode` panics. -/
def BIOS.roleOf (b : BIOS) (account : String) : Option Role :=
  match b.IsBootNode account with
  | none => none
  | some true => some Role.Origin
  | some false =>
    if b.IsAppointedBlockProducer account then some Role.Delegate
    else some Role.Follower

/-! ## Shuffling -/

/-- The method `BIOS.ShuffleProducers`.  `now` is what `time.Now()` answers.
The returned error is always `nil`. -/
def BIOS.ShuffleProducers (b : BIOS) (now : Time) (btcMerkleRoot : List UInt8)
    (blockTime : Time) : BIOS × GoError :=
  if b.Config.NoShuffle then
    ({ b with
        ShuffledProducers := b.LaunchData.Producers
        ShuffleBlock := { Time := now.UTC, MerkleRoot := List.replicate 16 0 } }, none)
  else
    ({ b with
        ShuffledProducers := b.LaunchData.Producers
        ShuffleBlock := { Time := blockTime, MerkleRoot := btcMerkleRoot } }, none)

/-! ## The genesis document

`GenerateGenesisJSON` calls `Time.Format`, `hex.EncodeToString` and
`json.Marshal` of the Go standard library.  They are embedded here as the
standard library behaves on the values `GenerateGenesisJSON` hands them. -/

/-- The table `hextable` of `encoding/hex`, also the table `hex` of
`encoding/json`. -/
def hextable : List Char := "0123456789abcdef".toList

/-- The function `hex.EncodeToString`: two lowercase digits per byte, high
nibble first. -/
def hex.EncodeToString : List UInt8 → List Char
  | [] => []
  | v :: rest =>
    hextable.getD (v.toNat / 16) '0' :: hextable.getD (v.toNat % 16) '0'
      :: hex.EncodeToString rest

/-- The digit loop of `appendInt` in package `time`: the decimal digits of `u`
are put in front of `buf`, least significant first, within the 20 bytes of the
buffer. -/
def appendInt.digits : Nat → Nat → List Char → List Char
  | 0, _, buf => buf
  | fuel + 1, u, buf =>
    if u ≥ 10 then appendInt.digits fuel (u / 10) (Char.ofNat (48 + u % 10) :: buf)
    else Char.ofNat (48 + u) :: buf

/-- The function `appendInt(b, x, width)` of package `time`: a minus sign when
`x < 0`, then the decimal digits of `|x|`, zero-padded to `width` digits. -/
def appendInt (x : Int) (width : Nat) : List Char :=
  let buf := appendInt.digits 20 x.natAbs []
  (if x < 0 then ['-'] else []) ++ List.replicate (width - buf.length) '0' ++ buf

/-- The day count of the proleptic Gregorian calendar turned into a date:
`days` counts from 1970-01-01, the answer is (year, month, day). -/
def civilFromDays (days : Int) : Int × Int × Int :=
  let z := days + 719468
  let era := z / 146097
  let doe := z - era * 146097
  let yoe := (doe - doe / 1460 + doe / 36524 - doe / 146096) / 365
  let doy := doe - (365 * yoe + yoe / 4 - yoe / 100)
  let mp := (5 * doy + 2) / 153
  let d := doy - (153 * mp + 2) / 5 + 1
  let m := if mp < 10 then mp + 3 else mp - 9
  let y := yoe + era * 400
  (if m ≤ 2 then y + 1 else y, m, d)

/-- The method `Time.Format` for the layout `"2006-01-02T15:04:05"`: year (at
least four digits), month, day, hour, minute and second of the time in its
location, each of the last five on two digits. -/
def Time.Format (t : Time) : List Char :=
  let abs := t.unixSec + t.zoneOffset
  let date := civilFromDays (abs / 86400)
  let sec := abs % 86400
  appendInt date.1 4 ++ ['-'] ++ appendInt date.2.1 2 ++ ['-'] ++ appendInt date.2.2 2
    ++ ['T'] ++ appendInt (sec / 3600) 2 ++ [':'] ++ appendInt (sec % 3600 / 60) 2
    ++ [':'] ++ appendInt (sec % 60) 2

/-- The rune `utf8.RuneError`. -/
def RuneError : Nat := 0xFFFD

/-- Whether a byte is a UTF-8 continuation byte within `lo..hi`. -/
def utf8.inRange (c : Char) (lo hi : Nat) : Bool := decide (lo ≤ c.toNat ∧ c.toNat ≤ hi)

/-- The function `utf8.DecodeRuneInString`: the first rune of `s` and its width
in bytes; `(RuneError, 1)` when `s` does not start with a well-formed
encoding, `(RuneError, 0)` when `s` is empty. -/
def utf8.DecodeRuneInString : List Char → Nat × Nat
  | [] => (RuneError, 0)
  | c0 :: rest =>
    let b0 := c0.toNat
    if b0 < 0x80 then (b0, 1)
    else if 0xC2 ≤ b0 ∧ b0 ≤ 0xDF then
      match rest with
      | c1 :: _ =>
        if utf8.inRange c1 0x80 0xBF then (b0 % 32 * 64 + c1.toNat % 64, 2)
        else (RuneError, 1)
      | _ => (RuneError, 1)
    else if 0xE0 ≤ b0 ∧ b0 ≤ 0xEF then
      match rest with
      | c1 :: c2 :: _ =>
        if utf8.inRange c1 (if b0 = 0xE0 then 0xA0 else 0x80) (if b0 = 0xED then 0x9F else 0xBF)
            ∧ utf8.inRange c2 0x80 0xBF then
          (b0 % 16 * 4096 + c1.toNat % 64 * 64 + c2.toNat % 64, 3)
        else (RuneError, 1)
      | _ => (RuneError, 1)
    else if 0xF0 ≤ b0 ∧ b0 ≤ 0xF4 then
      match rest with
      | c1 :: c2 :: c3 :: _ =>
        if utf8.inRange c1 (if b0 = 0xF0 then 0x90 else 0x80) (if b0 = 0xF4 then 0x8F else 0xBF)
            ∧ utf8.inRange c2 0x80 0xBF ∧ utf8.inRange c3 0x80 0xBF then
          (b0 % 8 * 262144 + c1.toNat % 64 * 4096 + c2.toNat % 64 * 64 + c3.toNat % 64, 4)
        else (RuneError, 1)
      | _ => (RuneError, 1)
    else (RuneError, 1)

/-- The function `utf8.ValidString`, one rune per unit of `fuel`: whether a
string is made of well-formed encodings only. -/
def utf8.ValidString : Nat → List Char → Bool
  | 0, s => s.isEmpty
  | _ + 1, [] => true
  | fuel + 1, c :: rest =>
    let r := utf8.DecodeRuneInString (c :: rest)
    if r.1 = RuneError ∧ r.2 = 1 then false
    else utf8.ValidString fuel (rest.drop (r.2 - 1))

/-- The table `htmlSafeSet` of `encoding/json`: the bytes below `0x80` written
as they are, that is all of them from the space on but the double quote, the
ampersand, the angle brackets and the backslash. -/
def htmlSafeSet (c : Char) : Bool :=
  decide (0x20 ≤ c.toNat) && !(c == '"' || c == '&' || c == '<' || c == '>' || c == '\\')

/-- The escape `encoding/json` writes for a byte below `0x80` that is not in
`htmlSafeSet`. -/
def json.escapeByte (c : Char) : List Char :=
  if c = '\\' ∨ c = '"' then ['\\', c]
  else if c = '\n' then ['\\', 'n']
  else if c = '\r' then ['\\', 'r']
  else if c = '\t' then ['\\', 't']
  else ['\\', 'u', '0', '0', hextable.getD (c.toNat / 16) '0', hextable.getD (c.toNat % 16) '0']

/-- The loop of `encodeState.string` of `encoding/json` (with `escapeHTML`), on
the bytes of the string still to be written; one iteration per unit of
`fuel`. -/
def json.stringLoop : Nat → List Char → List Char
  | 0, _ => []
  | _ + 1, [] => []
  | fuel + 1, c :: rest =>
    if c.toNat < 0x80 then
      (if htmlSafeSet c then [c] else json.escapeByte c) ++ json.stringLoop fuel rest
    else
      let r := utf8.DecodeRuneInString (c :: rest)
      if r.1 = RuneError ∧ r.2 = 1 then
        "\\ufffd".toList ++ json.stringLoop fuel rest
      else if r.1 = 0x2028 ∨ r.1 = 0x2029 then
        "\\u202".toList ++ [hextable.getD (r.1 % 16) '0']
          ++ json.stringLoop fuel (rest.drop (r.2 - 1))
      else
        (c :: rest).take r.2 ++ json.stringLoop fuel (rest.drop (r.2 - 1))

/-- The method `encodeState.string`: the JSON string literal of `s`.  Every
iteration of the loop consumes a byte at least, so `s.length` iterations
suffice. -/
def json.string (s : List Char) : List Char :=
  ['"'] ++ json.stringLoop s.length s ++ ['"']

/-- Modelled from the spec: the declaration of `GenesisJSON` and its JSON tags
are outside `bios.go`.  The three fields `GenerateGenesisJSON` fills, written
under the keys of the genesis document wire shape, `initial_timestamp`,
`initial_key` and `initial_chain_id`. -/
structure GenesisJSON where
  InitialTimestamp : List Char
  InitialKey : List Char
  InitialChainID : List Char
deriving DecidableEq

/-- The call `json.Marshal` on a `GenesisJSON`: an object of three string
members, in the order of the fields, without white space. -/
def json.Marshal (g : GenesisJSON) : List Char :=
  "\x7b\"initial_timestamp\":".toList ++ json.string g.InitialTimestamp
    ++ ",\"initial_key\":".toList ++ json.string g.InitialKey
    ++ ",\"initial_chain_id\":".toList ++ json.string g.InitialChainID
    ++ "\x7d".toList

/-- The method `BIOS.GenerateGenesisJSON`. -/
def BIOS.GenerateGenesisJSON (b : BIOS) (pubKey : String) : String :=
  String.mk (json.Marshal
    { InitialTimestamp := b.ShuffleBlock.Time.UTC.Format
      InitialKey := pubKey.data
      InitialChainID := hex.EncodeToString b.ChainID })

/-! ## Reading the genesis document back

What a reader of the genesis document does: a parser of JSON objects whose
members are strings, in the compact form `json.Marshal` writes, a reader of
timestamps `YYYY-MM-DDTHH:MM:SS` and a decoder of hexadecimal strings.  These
are not part of `bios.go`; the properties of `GenerateGenesisJSON` are stated
against them. -/

/-- The value of a hexadecimal digit. -/
def hexVal (c : Char) : Option Nat :=
  if 48 ≤ c.toNat ∧ c.toNat ≤ 57 then some (c.toNat - 48)
  else if 97 ≤ c.toNat ∧ c.toNat ≤ 102 then some (c.toNat - 87)
  else if 65 ≤ c.toNat ∧ c.toNat ≤ 70 then some (c.toNat - 55)
  else none

/-- The value of four hexadecimal digits. -/
def hex4 (a b c d : Char) : Option Nat :=
  match hexVal a, hexVal b, hexVal c, hexVal d with
  | some x, some y, some z, some w => some (x * 4096 + y * 256 + z * 16 + w)
  | _, _, _, _ => none

/-- The UTF-8 encoding of a rune, as bytes. -/
def utf8.EncodeRune (r : Nat) : List Char :=
  if r < 0x80 then [Char.ofNat r]
  else if r < 0x800 then [Char.ofNat (0xC0 + r / 64), Char.ofNat (0x80 + r % 64)]
  else if r < 0x10000 then
    [Char.ofNat (0xE0 + r / 4096), Char.ofNat (0x80 + r / 64 % 64), Char.ofNat (0x80 + r % 64)]
  else
    [Char.ofNat (0xF0 + r / 262144), Char.ofNat (0x80 + r / 4096 % 64),
     Char.ofNat (0x80 + r / 64 % 64), Char.ofNat (0x80 + r % 64)]

/-- One item of the body of a JSON string: a byte written as it is, or an
escape sequence.  The answer is the bytes it stands for and the text after it;
`none` at the closing quote, at a control byte and at a malformed escape (an
escaped surrogate is not read). -/
def json.readItem : List Char → Option (List Char × List Char)
  | [] => none
  | c :: rest =>
    if c = '"' then none
    else if c = '\\' then
      match rest with
      | [] => none
      | e :: rest =>
        if e = 'u' then
          match rest with
          | h₁ :: h₂ :: h₃ :: h₄ :: rest =>
            match hex4 h₁ h₂ h₃ h₄ with
            | some r => if 0xD800 ≤ r ∧ r ≤ 0xDFFF then none else some (utf8.EncodeRune r, rest)
            | none => none
          | _ => none
        else if e = '"' ∨ e = '\\' ∨ e = '/' then some ([e], rest)
        else if e = 'b' then some ([Char.ofNat 8], rest)
        else if e = 'f' then some ([Char.ofNat 12], rest)
        else if e = 'n' then some (['\n'], rest)
        else if e = 'r' then some (['\r'], rest)
        else if e = 't' then some (['\t'], rest)
        else none
    else if c.toNat < 0x20 then none
    else some ([c], rest)

/-- The body of a JSON string up to its closing quote: the bytes read after
`acc`, and the text after the quote. -/
def json.parseStringBody : Nat → List Char → List Char → Option (List Char × List Char)
  | 0, _, _ => none
  | _ + 1, [], _ => none
  | fuel + 1, c :: rest, acc =>
    if c = '"' then some (acc, rest)
    else
      match json.readItem (c :: rest) with
      | some (bytes, rest) => json.parseStringBody fuel rest (acc ++ bytes)
      | none => none

/-- A JSON string: the bytes it stands for and the text after it. -/
def json.parseString : List Char → Option (List Char × List Char)
  | [] => none
  | c :: rest => if c = '"' then json.parseStringBody (rest.length + 1) rest [] else none

/-- The members of a JSON object after its opening brace: `"key":"value"`
separated by commas, up to the closing brace, which ends the text. -/
def json.parseMembers : Nat → List Char → List (List Char × List Char)
    → Option (List (List Char × List Char))
  | 0, _, _ => none
  | fuel + 1, s, acc =>
    match json.parseString s with
    | some (key, ':' :: s) =>
      match json.parseString s with
      | some (value, [c]) => if c = '\x7d' then some (acc ++ [(key, value)]) else none
      | some (value, c :: s) =>
        if c = ',' then json.parseMembers fuel s (acc ++ [(key, value)]) else none
      | _ => none
    | _ => none

/-- A JSON object whose members are strings, as the list of its members. -/
def json.parseObject : List Char → Option (List (List Char × List Char))
  | [] => none
  | c :: rest => if c = '\x7b' then json.parseMembers (rest.length + 1) rest [] else none

/-- The genesis document read from its JSON text: the strings under the keys
`initial_timestamp`, `initial_key` and `initial_chain_id`. -/
def json.parseGenesis (s : List Char) : Option GenesisJSON :=
  match json.parseObject s with
  | none => none
  | some members =>
    match members.lookup "initial_timestamp".toList, members.lookup "initial_key".toList,
      members.lookup "initial_chain_id".toList with
    | some ts, some key, some chainID =>
      some { InitialTimestamp := ts, InitialKey := key, InitialChainID := chainID }
    | _, _, _ => none

/-- The value of a decimal digit. -/
def digitVal (c : Char) : Option Int :=
  if 48 ≤ c.toNat ∧ c.toNat ≤ 57 then some (c.toNat - 48 : Nat) else none

/-- The number of days from 1970-01-01 to a date of the proleptic Gregorian
calendar. -/
def daysFromCivil (y m d : Int) : Int :=
  let y := if m ≤ 2 then y - 1 else y
  let era := y / 400
  let yoe := y - era * 400
  let doy := (153 * (if m > 2 then m - 3 else m + 9) + 2) / 5 + d - 1
  let doe := yoe * 365 + yoe / 4 - yoe / 100 + doy
  era * 146097 + doe - 719468

/-- The number of days of a month. -/
def daysInMonth (y m : Int) : Int :=
  if m = 2 then (if y % 4 = 0 ∧ (y % 100 ≠ 0 ∨ y % 400 = 0) then 29 else 28)
  else if m = 4 ∨ m = 6 ∨ m = 9 ∨ m = 11 then 30
  else 31

/-- The Unix time, in seconds, a text `YYYY-MM-DDTHH:MM:SS` denotes when read
as UTC; `none` when the text has another shape or names no date and time. -/
def parseTimestamp : List Char → Option Int
  | [y₃, y₂, y₁, y₀, '-', m₁, m₀, '-', d₁, d₀, 'T', h₁, h₀, ':', i₁, i₀, ':', s₁, s₀] =>
    match digitVal y₃, digitVal y₂, digitVal y₁, digitVal y₀, digitVal m₁, digitVal m₀,
      digitVal d₁, digitVal d₀, digitVal h₁, digitVal h₀, digitVal i₁, digitVal i₀,
      digitVal s₁, digitVal s₀ with
    | some y₃, some y₂, some y₁, some y₀, some m₁, some m₀, some d₁, some d₀, some h₁,
      some h₀, some i₁, some i₀, some s₁, some s₀ =>
      let y := y₃ * 1000 + y₂ * 100 + y₁ * 10 + y₀
      let m := m₁ * 10 + m₀
      let d := d₁ * 10 + d₀
      let h := h₁ * 10 + h₀
      let i := i₁ * 10 + i₀
      let s := s₁ * 10 + s₀
      if 1 ≤ m ∧ m ≤ 12 ∧ 1 ≤ d ∧ d ≤ daysInMonth y m ∧ h < 24 ∧ i < 60 ∧ s < 60 then
        some (daysFromCivil y m d * 86400 + h * 3600 + i * 60 + s)
      else none
    | _, _, _, _, _, _, _, _, _, _, _, _, _, _ => none
  | _ => none

/-- Whether a text has the shape `YYYY-MM-DDTHH:MM:SS`: 19 characters, digits
but for the two dashes, the `T` and the two colons, nothing after the
seconds. -/
def isTimestampShape : List Char → Bool
  | [y₃, y₂, y₁, y₀, c₄, m₁, m₀, c₇, d₁, d₀, c₁₀, h₁, h₀, c₁₃, i₁, i₀, c₁₆, s₁, s₀] =>
    [y₃, y₂, y₁, y₀, m₁, m₀, d₁, d₀, h₁, h₀, i₁, i₀, s₁, s₀].all
        (fun c => (digitVal c).isSome)
      && c₄ == '-' && c₇ == '-' && c₁₀ == 'T' && c₁₃ == ':' && c₁₆ == ':'
  | _ => false

/-- The function `hex.DecodeString`, on lowercase or uppercase digits. -/
def hex.DecodeString : List Char → Option (List UInt8)
  | [] => some []
  | [_] => none
  | a :: b :: rest =>
    match hexVal a, hexVal b, hex.DecodeString rest with
    | some x, some y, some bytes => some (UInt8.ofNat (x * 16 + y) :: bytes)
    | _, _, _ => none

/-! ## The derivation of snapshot account names -/

/-- The conversion `AN`: a string taken as an `eos.AccountName`. -/
def AN (s : String) : String := s

/-- The conversion `PN`: a string taken as an `eos.PermissionName`. -/
def PN (s : String) : String := s

/-- The call `binary.BigEndian.PutUint32(b[:4], v)` on a byte slice `b`: the
first four bytes become `v`, most significant byte first. -/
def BigEndian.PutUint32 (b : List Nat) (v : Nat) : List Nat :=
  [v / 2 ^ 24 % 256, v / 2 ^ 16 % 256, v / 2 ^ 8 % 256, v % 256] ++ b.drop 4

/-- The call `binary.LittleEndian.Uint64(b)`: the first eight bytes of `b`,
least significant byte first. -/
def LittleEndian.Uint64 (b : List Nat) : Nat :=
  b.getD 0 0 + b.getD 1 0 * 2 ^ 8 + b.getD 2 0 * 2 ^ 16 + b.getD 3 0 * 2 ^ 24
    + b.getD 4 0 * 2 ^ 32 + b.getD 5 0 * 2 ^ 40 + b.getD 6 0 * 2 ^ 48
    + b.getD 7 0 * 2 ^ 56

/-- The value `intAcct` of the seeding loop at loop index `idx`:
`uint32(idx+1)` written big-endian over the first four bytes of
`{00 00 00 00 3b ac a6 62}`, the eight bytes read little-endian. -/
def intAcct (idx : Nat) : Nat :=
  let accountBytes : List Nat := [0x00, 0x00, 0x00, 0x00, 0x3b, 0xac, 0xa6, 0x62]
  let accountBytes := BigEndian.PutUint32 accountBytes ((idx + 1) % 2 ^ 32)
  LittleEndian.Uint64 accountBytes

/-- The alphabet of eosio names. -/
def base32Alphabet : List Char := ".12345abcdefghijklmnopqrstuvwxyz".toList

/-- The loop of `eos.NameToString`: at step `i` the low 4 bits (`i = 0`) or
5 bits of `tmp` choose the character written at position `12 - i`. -/
def NameToString.loop : Nat → Nat → Nat → List Char → List Char
  | 0, _, _, a => a
  | fuel + 1, i, tmp, a =>
    let bit := if i = 0 then 16 else 32
    let c := base32Alphabet.getD (tmp % bit) '.'
    NameToString.loop fuel (i + 1) (tmp / bit) (c :: a)

/-- The library function `eos.NameToString` of `eosapi`, which is not part of
`bios.go`: the 13 characters of the eosio base-32 rendering of a 64-bit name,
trailing dots trimmed.  The comment of `bios.go` on the value
7108558431253954560 is checked against it in `NameToString_genesis`. -/
def NameToString (v : Nat) : String :=
  String.mk ((NameToString.loop 13 0 v []).rdropWhile (fun c => c == '.'))

/-- The account a holder is seeded to: `AN(eos.NameToString(intAcct))`. -/
def destAccount (idx : Nat) : String := AN (NameToString (intAcct idx))

/-! ## The ledger -/

/-- The type `eos.KeyWeight`. -/
structure KeyWeight where
  PublicKey : String
  Weight : Nat
deriving DecidableEq

/-- The type `eos.PermissionLevel`. -/
structure PermissionLevel where
  Actor : String
  Permission : String
deriving DecidableEq

/-- The type `eos.PermissionLevelWeight`. -/
structure PermissionLevelWeight where
  Permission : PermissionLevel
  Weight : Nat
deriving DecidableEq

/-- The type `eos.Authority`. -/
structure Authority where
  Threshold : Nat
  Keys : List KeyWeight
  Accounts : List PermissionLevelWeight
deriving DecidableEq

/-- The action built by `system.NewUpdateAuth(account, permission, parent,
authority, usingPermission)`, held as its arguments. -/
structure UpdateAuth where
  Account : String
  Permission : String
  Parent : String
  Data : Authority
  UsingPermission : String
deriving DecidableEq

/-- The constructor `system.NewUpdateAuth`. -/
def system.NewUpdateAuth (account permission parent : String) (authority : Authority)
    (usingPermission : String) : UpdateAuth :=
  { Account := account, Permission := permission, Parent := parent, Data := authority,
    UsingPermission := usingPermission }

/-- The total weight a public key carries in an authority. -/
def Authority.keyWeight (a : Authority) (key : String) : Nat :=
  ((a.Keys.filter (fun k => decide (k.PublicKey = key))).map KeyWeight.Weight).sum

/-- A call made on the ledger through `b.API`, with its arguments. -/
inductive Call where
  | SetCode (account codePath abiPath : String)
  | NewAccount (creator newAccount publicKey : String)
  | Issue (account : String) (amount : Asset)
  | Transfer (sender receiver : String) (quantity : Asset) (memo : String)
  | SignPushActions (actions : List UpdateAuth)
deriving DecidableEq

/-- A key made by `ecc.NewRandomPrivateKey`, as the two strings
`PublicKey().String()` and `String()`. -/
structure PrivateKey where
  pubKey : String
  privKey : String
deriving DecidableEq

/-- What the collaborators of one run answer.  `ledger k c` is the error
returned by the `k`-th call made on the ledger (counted from 1) when that call
is `c`. -/
structure Env where
  NewRandomPrivateKey : Except String PrivateKey
  ImportPrivateKey : String → GoError
  DispatchConfigReady : String → String → String → String → Bool → GoError
  ledger : Nat → Call → GoError

/-- How a Go function ends: it returns an `error`, or it panics. -/
inductive Outcome where
  | ret (err : GoError)
  | panic (msg : String)
deriving DecidableEq

/-- A run: the calls made on the ledger, in order, and how the run ended. -/
structure Run where
  trace : List Call
  outcome : Outcome
deriving DecidableEq

/-- One call on the ledger: it is recorded, and the ledger answers. -/
def Env.call (env : Env) (trace : List Call) (c : Call) : List Call × GoError :=
  (trace ++ [c], env.ledger (trace.length + 1) c)

/-! ## Boot-node stage 1 -/

/-- The method `BIOS.GenerateEphemeralPrivKey`. -/
def BIOS.GenerateEphemeralPrivKey (_b : BIOS) (env : Env) : Except String PrivateKey :=
  env.NewRandomPrivateKey

/-- The loop of `RunBootNodeStage1` over `b.ShuffledProducers`: one
`NewAccount` per producer; the first error ends the function. -/
def RunBootNodeStage1.producers (env : Env) (eosioAcct : String) :
    List ProducerDef → List Call → List Call × GoError
  | [], trace => (trace, none)
  | prod :: rest, trace =>
    let r := env.call trace (Call.NewAccount eosioAcct prod.EOSIOAccountName prod.pubKey)
    match r.2 with
    | some err => (r.1, some ("newaccount " ++ prod.EOSIOAccountName ++ ": " ++ err))
    | none => RunBootNodeStage1.producers env eosioAcct rest r.1

/-- The loop of `RunBootNodeStage1` over `b.Snapshot`, at index `idx`.  The
answer `some o` says the function ends there with `o`; `none` says the loop is
left, at the end of the snapshot or by the `break` at `idx == 5`.  The slice
expression of the memo panics when the address has fewer than 6 bytes; it is
evaluated before `Transfer` is called. -/
def RunBootNodeStage1.hodlers (env : Env) (eosioAcct : String) :
    Nat → List Holder → List Call → List Call × Option Outcome
  | _, [], trace => (trace, none)
  | idx, hodler :: rest, trace =>
    let destAccount := destAccount idx
    let r := env.call trace (Call.NewAccount eosioAcct destAccount hodler.EOSPublicKey)
    match r.2 with
    | some err => (r.1, some (Outcome.ret (some ("hodler: newaccount: " ++ err))))
    | none =>
      if hodler.EthereumAddress.length < 6 then
        (r.1, some (Outcome.panic "runtime error: slice bounds out of range"))
      else
        let memo := "Welcome "
          ++ hodler.EthereumAddress.drop (hodler.EthereumAddress.length - 6)
        let r := env.call r.1 (Call.Transfer (AN "eosio") destAccount hodler.Balance memo)
        match r.2 with
        | some err => (r.1, some (Outcome.ret (some ("hodler: transfer: " ++ err))))
        | none =>
          if idx = 5 then (r.1, none)
          else RunBootNodeStage1.hodlers env eosioAcct (idx + 1) rest r.1

/-- The batch of the two `updateauth` actions pushed at the end of stage 1. -/
def RunBootNodeStage1.updateAuths : List UpdateAuth :=
  [ system.NewUpdateAuth (AN "eosio") (PN "active") (PN "owner")
      { Threshold := 0, Keys := [], Accounts := [] } (PN "active"),
    system.NewUpdateAuth (AN "eosio") (PN "owner") (PN "")
      { Threshold := 0, Keys := [], Accounts := [] } (PN "owner") ]

/-- The method `BIOS.RunBootNodeStage1`. -/
def BIOS.RunBootNodeStage1 (b : BIOS) (env : Env) : Run :=
  match b.GenerateEphemeralPrivKey env with
  | Except.error err => ⟨[], Outcome.ret (some err)⟩
  | Except.ok ephemeralPrivateKey =>
    let pubKey := ephemeralPrivateKey.pubKey
    let privKey := ephemeralPrivateKey.privKey
    match env.ImportPrivateKey privKey with
    | some err => ⟨[], Outcome.ret (some ("ImportWIF: " ++ err))⟩
    | none =>
      let genesisData := b.GenerateGenesisJSON pubKey
      match env.DispatchConfigReady genesisData "eosio" pubKey privKey true with
      | some err => ⟨[], Outcome.ret (some ("dispatch config_ready hook: " ++ err))⟩
      | none =>
        let eosioAcct := AN "eosio"
        let r := env.call [] (Call.SetCode eosioAcct b.Config.SystemContract.CodePath
          b.Config.SystemContract.ABIPath)
        match r.2 with
        | some err => ⟨r.1, Outcome.ret (some ("setcode: " ++ err))⟩
        | none =>
          let r := RunBootNodeStage1.producers env eosioAcct b.ShuffledProducers r.1
          match r.2 with
          | some err => ⟨r.1, Outcome.ret (some err)⟩
          | none =>
            let eosSymbol : Symbol := { Precision := 4, Symbol := "EOS" }
            let r := env.call r.1
              (Call.Issue "eosio" { Amount := 10000000000000, Symbol := eosSymbol })
            match r.2 with
            | some err => ⟨r.1, Outcome.ret (some ("issue: " ++ err))⟩
            | none =>
              let r := RunBootNodeStage1.hodlers env eosioAcct 0 b.Snapshot r.1
              match r.2 with
              | some o => ⟨r.1, o⟩
              | none =>
                let r := env.call r.1 (Call.SignPushActions RunBootNodeStage1.updateAuths)
                match r.2 with
                | some err => ⟨r.1, Outcome.ret (some ("updateauth: " ++ err))⟩
                | none => ⟨r.1, Outcome.ret none⟩

/-- A ledger whose every call succeeds, with a key generator, a signer and a
hook dispatcher that succeed too. -/
def Env.allOk (key : PrivateKey) : Env :=
  { NewRandomPrivateKey := Except.ok key
    ImportPrivateKey := fun _ => none
    DispatchConfigReady := fun _ _ _ _ _ => none
    ledger := fun _ _ => none }

/-- A ledger whose `n`-th call fails with `msg` and whose other calls
succeed. -/
def Env.failAt (key : PrivateKey) (n : Nat) (msg : String) : Env :=
  { Env.allOk key with ledger := fun k _ => if k = n then some msg else none }

/-- The same collaborators with a ledger whose every call succeeds: the
all-success run of an environment is the run under `env.ledgerOk`. -/
def Env.ledgerOk (env : Env) : Env :=
  { env with ledger := fun _ _ => none }

/-! ### The statements of stage 1, from one statement to the end

The rest of `RunBootNodeStage1` from a given statement on, as a function of the
calls recorded so far.  `RunBootNodeStage1_eq_fromSetCode` shows that
`RunBootNodeStage1` is these run in a row. -/

/-- From the `SignPushActions` call to the end. -/
def RunBootNodeStage1.fromUpdateAuth (env : Env) (trace : List Call) : Run :=
  let r := env.call trace (Call.SignPushActions RunBootNodeStage1.updateAuths)
  match r.2 with
  | some err => ⟨r.1, Outcome.ret (some ("updateauth: " ++ err))⟩
  | none => ⟨r.1, Outcome.ret none⟩

/-- From the loop over the snapshot to the end. -/
def RunBootNodeStage1.fromSnapshot (b : BIOS) (env : Env) (trace : List Call) : Run :=
  let r := RunBootNodeStage1.hodlers env (AN "eosio") 0 b.Snapshot trace
  match r.2 with
  | some o => ⟨r.1, o⟩
  | none => RunBootNodeStage1.fromUpdateAuth env r.1

/-- From the `Issue` call to the end. -/
def RunBootNodeStage1.fromIssue (b : BIOS) (env : Env) (trace : List Call) : Run :=
  let r := env.call trace
    (Call.Issue "eosio" { Amount := 10000000000000, Symbol := { Precision := 4, Symbol := "EOS" } })
  match r.2 with
  | some err => ⟨r.1, Outcome.ret (some ("issue: " ++ err))⟩
  | none => RunBootNodeStage1.fromSnapshot b env r.1

/-- From the loop over the producers to the end. -/
def RunBootNodeStage1.fromProducers (b : BIOS) (env : Env) (trace : List Call) : Run :=
  let r := RunBootNodeStage1.producers env (AN "eosio") b.ShuffledProducers trace
  match r.2 with
  | some err => ⟨r.1, Outcome.ret (some err)⟩
  | none => RunBootNodeStage1.fromIssue b env r.1

/-- From the `SetCode` call, the first call on the ledger, to the end. -/
def RunBootNodeStage1.fromSetCode (b : BIOS) (env : Env) : Run :=
  let r := env.call [] (Call.SetCode (AN "eosio") b.Config.SystemContract.CodePath
    b.Config.SystemContract.ABIPath)
  match r.2 with
  | some err => ⟨r.1, Outcome.ret (some ("setcode: " ++ err))⟩
  | none => RunBootNodeStage1.fromProducers b env r.1

/-- The calls that seed a list of holders from the loop index `idx` on: for each
holder the `NewAccount` of its derived account with its key, then the
`Transfer` of its balance from `eosio` with the memo of its address. -/
def RunBootNodeStage1.seedCalls : Nat → List Holder → List Call
  | _, [] => []
  | idx, hodler :: rest =>
    Call.NewAccount (AN "eosio") (destAccount idx) hodler.EOSPublicKey
      :: Call.Transfer (AN "eosio") (destAccount idx) hodler.Balance
          ("Welcome " ++ hodler.EthereumAddress.drop (hodler.EthereumAddress.length - 6))
      :: RunBootNodeStage1.seedCalls (idx + 1) rest

/-- A run `r` stops at the `N`-th call of the run `rOk`: either fewer than `N`
calls are made and `r` is `rOk`, or exactly `N` calls are made, they are the
first calls of `rOk`, and `r` returns an error. -/
def Run.StopsAt (N : Nat) (r rOk : Run) : Prop :=
  (r.trace.length < N ∧ r = rOk)
    ∨ (r.trace.length = N ∧ r.trace <+: rOk.trace ∧ ∃ e, r.outcome = Outcome.ret (some e))

/-! ## Sample inputs -/

/-- A producer whose keys are derived from its account name. -/
def sampleProducer (name : String) : ProducerDef :=
  { EOSIOAccountName := name, EOSIOPublicKey := "EOS" ++ name, pubKey := "EOS" ++ name }

/-- A `BIOS` over a roster and a snapshot, local account `me`, with
`ShuffledProducers` already set to the roster. -/
def sampleBIOS (roster : List ProducerDef) (snapshot : List Holder) (me : String) : BIOS :=
  { LaunchData := { Producers := roster }
    Config := { NoShuffle := false, Producer := { MyAccount := me },
                SystemContract := { CodePath := "eosio.system.wasm", ABIPath := "eosio.system.abi" } }
    ChainID := [0x00, 0x01, 0xab, 0xff]
    Snapshot := snapshot
    ShuffleBlock := { Time := { unixSec := 1522540800, nsec := 0, zoneOffset := 0 },
                      MerkleRoot := [] }
    ShuffledProducers := roster }

/-- The key pair the sample runs generate. -/
def sampleKey : PrivateKey := { pubKey := "EOS6ephemeral", privKey := "5Jephemeral" }

/-- A holder with an address, a balance in EOS and a key derived from the
address. -/
def sampleHolder (address : String) (amount : Int) : Holder :=
  { EthereumAddress := address, EOSPublicKey := "EOS" ++ address,
    Balance := { Amount := amount, Symbol := { Precision := 4, Symbol := "EOS" } } }

/-- The snapshot of the two holders `0xABCDEF123456` and `0x000000654321`. -/
def sampleSnapshot : List Holder :=
  [sampleHolder "0xABCDEF123456" 100, sampleHolder "0x000000654321" 50]

/-- A snapshot of seven holders. -/
def sevenHolders : List Holder :=
  [sampleHolder "0xAAAAAAAAAAA1" 1, sampleHolder "0xAAAAAAAAAAA2" 2,
   sampleHolder "0xAAAAAAAAAAA3" 3, sampleHolder "0xAAAAAAAAAAA4" 4,
   sampleHolder "0xAAAAAAAAAAA5" 5, sampleHolder "0xAAAAAAAAAAA6" 6,
   sampleHolder "0xAAAAAAAAAAA7" 7]

/-! # Properties -/

/-! ## Role resolution -/

theorem MyProducerDef.loop_error_iff (me : String) (ps : List ProducerDef) :
    (∃ e, MyProducerDef.loop me ps = Except.error e) ↔
      ∀ p ∈ ps, p.EOSIOAccountName ≠ me := by
  induction ps with
  | nil => simp [MyProducerDef.loop]
  | cons q rest ih =>
    by_cases h : me = q.EOSIOAccountName
    · simp [MyProducerDef.loop, h]
    · have h' : ¬ q.EOSIOAccountName = me := fun e => h e.symm
      simp [MyProducerDef.loop, h, h', ih]

theorem MyProducerDef.loop_ok (me : String) (ps : List ProducerDef) (p : ProducerDef)
    (h : MyProducerDef.loop me ps = Except.ok p) :
    p ∈ ps ∧ p.EOSIOAccountName = me := by
  induction ps with
  | nil => simp [MyProducerDef.loop] at h
  | cons q rest ih =>
    by_cases hq : me = q.EOSIOAccountName
    · simp [MyProducerDef.loop, hq] at h
      subst h
      exact ⟨List.mem_cons_self _ _, hq.symm⟩
    · simp only [MyProducerDef.loop, hq, if_false] at h
      exact ⟨List.mem_cons_of_mem _ (ih h).1, (ih h).2⟩

/-- C5.  `MyProducerDef` returns an error if and only if no producer of the
launch data has the local account name; when it returns a producer, the producer
belongs to the launch data and its account name is the local account name. -/
theorem MyProducerDef_error_iff_absent (b : BIOS) :
    ((∃ e, b.MyProducerDef = Except.error e) ↔
        ∀ p ∈ b.LaunchData.Producers, p.EOSIOAccountName ≠ b.Config.Producer.MyAccount)
      ∧ ∀ p, b.MyProducerDef = Except.ok p →
          p ∈ b.LaunchData.Producers ∧ p.EOSIOAccountName = b.Config.Producer.MyAccount :=
  ⟨MyProducerDef.loop_error_iff _ _, fun p h => MyProducerDef.loop_ok _ _ p h⟩

/-- C5 at the rosters of the examples: on `[a, b, c]` the account `d` gets the
error, the account `b` its own producer. -/
theorem MyProducerDef_error_iff_absent_witness :
    (∃ e, (sampleBIOS [sampleProducer "a", sampleProducer "b", sampleProducer "c"] [] "d").MyProducerDef
        = Except.error e)
      ∧ sampleProducer "b" ∈ [sampleProducer "a", sampleProducer "b", sampleProducer "c"]
      ∧ (sampleProducer "b").EOSIOAccountName = "b" :=
  ⟨(MyProducerDef_error_iff_absent
      (sampleBIOS [sampleProducer "a", sampleProducer "b", sampleProducer "c"] [] "d")).1.2
      (by decide),
    (MyProducerDef_error_iff_absent
      (sampleBIOS [sampleProducer "a", sampleProducer "b", sampleProducer "c"] [] "b")).2
      (sampleProducer "b") rfl⟩

/-- What the loop of `IsAppointedBlockProducer` finds from index `i` on with
`fuel` iterations: a producer of that name at an index below 22 within reach. -/
theorem IsAppointedBlockProducer.loop_eq_true_iff (sp : List ProducerDef) (account : String)
    (fuel i : Nat) :
    IsAppointedBlockProducer.loop sp account fuel i = true ↔
      ∃ j p, i ≤ j ∧ j < i + fuel ∧ j < 22 ∧ sp[j]? = some p
        ∧ p.EOSIOAccountName = account := by
  induction fuel generalizing i with
  | zero =>
    simp only [IsAppointedBlockProducer.loop, Bool.false_eq_true, false_iff]
    rintro ⟨j, p, h1, h2, -⟩
    omega
  | succ fuel ih =>
    unfold IsAppointedBlockProducer.loop
    by_cases hc : i < 22 ∧ sp.length > i
    · obtain ⟨q, hq⟩ : ∃ q, sp[i]? = some q := ⟨sp[i], List.getElem?_eq_getElem hc.2⟩
      rw [if_pos hc, hq]
      by_cases hn : q.EOSIOAccountName = account
      · simp only [hn, if_true, true_iff]
        exact ⟨i, q, le_refl _, by omega, hc.1, hq, hn⟩
      · simp only [hn, if_false]
        rw [ih]
        constructor
        · rintro ⟨j, p, h1, h2, h3, h4, h5⟩
          exact ⟨j, p, by omega, by omega, h3, h4, h5⟩
        · rintro ⟨j, p, h1, h2, h3, h4, h5⟩
          have hji : j ≠ i := by
            rintro rfl
            rw [hq] at h4
            exact hn (by cases h4; exact h5)
          exact ⟨j, p, by omega, by omega, h3, h4, h5⟩
    · rw [if_neg hc]
      simp only [Bool.false_eq_true, false_iff]
      rintro ⟨j, p, h1, h2, h3, h4, h5⟩
      have hj : j < sp.length := by
        rcases Nat.lt_or_ge j sp.length with h | h
        · exact h
        · rw [List.getElem?_eq_none h] at h4
          cases h4
      exact hc ⟨by omega, by omega⟩

theorem IsAppointedBlockProducer_eq_true_iff (b : BIOS) (account : String) :
    b.IsAppointedBlockProducer account = true ↔
      ∃ j p, 1 ≤ j ∧ j ≤ 21 ∧ b.ShuffledProducers[j]? = some p
        ∧ p.EOSIOAccountName = account := by
  unfold BIOS.IsAppointedBlockProducer
  rw [IsAppointedBlockProducer.loop_eq_true_iff]
  constructor
  · rintro ⟨j, p, h1, h2, h3, h4, h5⟩
    exact ⟨j, p, h1, by omega, h4, h5⟩
  · rintro ⟨j, p, h1, h2, h4, h5⟩
    exact ⟨j, p, h1, by omega, by omega, h4, h5⟩

/-- C1, as stated, fails on a roster that names an account twice: in
`[a, a]` the operator at index 1 resolves to Origin, not to Delegate. -/
theorem roleOf_duplicate_name_counterexample :
    (sampleBIOS [sampleProducer "a", sampleProducer "a"] [] "a").ShuffledProducers[1]?
        = some (sampleProducer "a")
      ∧ (sampleBIOS [sampleProducer "a", sampleProducer "a"] [] "a").roleOf
          (sampleProducer "a").EOSIOAccountName = some Role.Origin
      ∧ (sampleBIOS [sampleProducer "a", sampleProducer "a"] [] "a").roleOf
          (sampleProducer "a").EOSIOAccountName ≠ some Role.Delegate := by
  decide

/-- C1, amended.  For the operator at index `i` of the shuffled roster, when no
operator at an earlier index has the same account name, the role resolved for
its account name is Origin when `i = 0`, Delegate when `1 ≤ i ≤ 21` and Follower
at every later index. -/
theorem roleOf_by_index (b : BIOS) (i : Nat) (p : ProducerDef)
    (hi : b.ShuffledProducers[i]? = some p)
    (hfirst : ∀ j q, j < i → b.ShuffledProducers[j]? = some q →
      q.EOSIOAccountName ≠ p.EOSIOAccountName) :
    b.roleOf p.EOSIOAccountName =
      some (if i = 0 then Role.Origin else if i ≤ 21 then Role.Delegate
        else Role.Follower) := by
  rcases Nat.eq_zero_or_pos i with h0 | hpos
  · subst h0
    simp [BIOS.roleOf, BIOS.IsBootNode, hi]
  · have hlen : i < b.ShuffledProducers.length := by
      rcases Nat.lt_or_ge i b.ShuffledProducers.length with h | h
      · exact h
      · rw [List.getElem?_eq_none h] at hi
        cases hi
    have h0len : 0 < b.ShuffledProducers.length := by omega
    obtain ⟨q0, hq0⟩ : ∃ q, b.ShuffledProducers[0]? = some q :=
      ⟨b.ShuffledProducers[0], List.getElem?_eq_getElem h0len⟩
    have hne : q0.EOSIOAccountName ≠ p.EOSIOAccountName := hfirst 0 q0 hpos hq0
    have hi0 : i ≠ 0 := by omega
    by_cases h21 : i ≤ 21
    · have habp : b.IsAppointedBlockProducer p.EOSIOAccountName = true :=
        (IsAppointedBlockProducer_eq_true_iff b _).2 ⟨i, p, hpos, h21, hi, rfl⟩
      simp [BIOS.roleOf, BIOS.IsBootNode, hq0, hne, habp, hi0, h21]
    · have habp : ¬ b.IsAppointedBlockProducer p.EOSIOAccountName = true := by
        rw [IsAppointedBlockProducer_eq_true_iff]
        rintro ⟨j, q, h1, h2, h3, h4⟩
        exact hfirst j q (by omega) h3 h4
      simp [BIOS.roleOf, BIOS.IsBootNode, hq0, hne, habp, hi0, h21]

/-- C1, amended, on the roster `[a, b, c]` of the examples: `c`, at index 2, is
a Delegate. -/
theorem roleOf_by_index_witness :
    (sampleBIOS [sampleProducer "a", sampleProducer "b", sampleProducer "c"] [] "a").roleOf "c"
      = some Role.Delegate :=
  roleOf_by_index
    (sampleBIOS [sampleProducer "a", sampleProducer "b", sampleProducer "c"] [] "a") 2
    (sampleProducer "c") (by decide)
    (by
      intro j q hj hq
      have hj' : j = 0 ∨ j = 1 := by omega
      rcases hj' with rfl | rfl
      · have : q = sampleProducer "a" := by
          simpa [sampleBIOS] using hq.symm
        subst this
        decide
      · have : q = sampleProducer "b" := by
          simpa [sampleBIOS] using hq.symm
        subst this
        decide)

/-! ## Shuffling -/

/-- C8.  With `NoShuffle` unset, two runs of `ShuffleProducers` over the same
roster, commitment and timestamp leave the same `ShuffledProducers`, whatever
else the two states and clocks hold, and that sequence is a permutation of the
roster. -/
theorem ShuffleProducers_deterministic (b₁ b₂ : BIOS) (now₁ now₂ : Time)
    (btcMerkleRoot : List UInt8) (blockTime : Time)
    (h₁ : b₁.Config.NoShuffle = false) (h₂ : b₂.Config.NoShuffle = false)
    (hroster : b₁.LaunchData.Producers = b₂.LaunchData.Producers) :
    (b₁.ShuffleProducers now₁ btcMerkleRoot blockTime).1.ShuffledProducers
        = (b₂.ShuffleProducers now₂ btcMerkleRoot blockTime).1.ShuffledProducers
      ∧ List.Perm (b₁.ShuffleProducers now₁ btcMerkleRoot blockTime).1.ShuffledProducers
          b₁.LaunchData.Producers
      ∧ (b₁.ShuffleProducers now₁ btcMerkleRoot blockTime).2 = none := by
  simp [BIOS.ShuffleProducers, h₁, h₂, hroster]

/-- C8 on the roster `[a, b, c]`, from two states that differ in the local
account and at two different clock readings. -/
theorem ShuffleProducers_deterministic_witness :
    ((sampleBIOS [sampleProducer "a", sampleProducer "b", sampleProducer "c"] [] "a").ShuffleProducers
        ⟨1, 0, 0⟩ [0xde, 0xad] ⟨1522540800, 0, 0⟩).1.ShuffledProducers
      = ((sampleBIOS [sampleProducer "a", sampleProducer "b", sampleProducer "c"] [] "b").ShuffleProducers
        ⟨2, 0, 0⟩ [0xde, 0xad] ⟨1522540800, 0, 0⟩).1.ShuffledProducers :=
  (ShuffleProducers_deterministic
    (sampleBIOS [sampleProducer "a", sampleProducer "b", sampleProducer "c"] [] "a")
    (sampleBIOS [sampleProducer "a", sampleProducer "b", sampleProducer "c"] [] "b")
    ⟨1, 0, 0⟩ ⟨2, 0, 0⟩ [0xde, 0xad] ⟨1522540800, 0, 0⟩ rfl rfl rfl).1

/-- C9 on the code.  `ShuffleProducers` leaves the roster in launch order
whatever the commitment and the timestamp are: no two commitments give two
different orders. -/
theorem ShuffleProducers_ignores_commitment (b : BIOS) (now₁ now₂ : Time)
    (root₁ root₂ : List UInt8) (t₁ t₂ : Time) :
    (b.ShuffleProducers now₁ root₁ t₁).1.ShuffledProducers = b.LaunchData.Producers
      ∧ (b.ShuffleProducers now₁ root₁ t₁).1.ShuffledProducers
          = (b.ShuffleProducers now₂ root₂ t₂).1.ShuffledProducers := by
  unfold BIOS.ShuffleProducers
  cases b.Config.NoShuffle <;> simp


/-! ## Boot-node stage 1: the trace of ledger calls -/

theorem Env.call_fst (env : Env) (tr : List Call) (c : Call) :
    (env.call tr c).1 = tr ++ [c] := rfl

theorem Env.call_ledgerOk (env : Env) (tr : List Call) (c : Call) :
    env.ledgerOk.call tr c = (tr ++ [c], none) := rfl

theorem Env.call_of_lt (env : Env) (N : Nat) (hok : ∀ k c, k < N → env.ledger k c = none)
    (tr : List Call) (c : Call) (h : tr.length + 1 < N) :
    env.call tr c = (tr ++ [c], none) := by
  simp [Env.call, hok _ c h]

theorem Env.call_of_eq (env : Env) (N : Nat) (hfail : ∀ c, env.ledger N c ≠ none)
    (tr : List Call) (c : Call) (h : tr.length + 1 = N) :
    ∃ e, env.call tr c = (tr ++ [c], some e) := by
  obtain ⟨e, he⟩ : ∃ e, env.ledger N c = some e := Option.ne_none_iff_exists'.mp (hfail c)
  exact ⟨e, by simp [Env.call, h, he]⟩

theorem RunBootNodeStage1.producers_prefix (env : Env) (acct : String)
    (ps : List ProducerDef) (tr : List Call) :
    tr <+: (RunBootNodeStage1.producers env acct ps tr).1 := by
  induction ps generalizing tr with
  | nil => exact List.prefix_refl _
  | cons p rest ih =>
    unfold RunBootNodeStage1.producers
    simp only
    split
    · simp [Env.call_fst]
    · refine List.IsPrefix.trans ?_ (ih _)
      simp [Env.call_fst]

theorem RunBootNodeStage1.hodlers_prefix (env : Env) (acct : String)
    (hs : List Holder) (idx : Nat) (tr : List Call) :
    tr <+: (RunBootNodeStage1.hodlers env acct idx hs tr).1 := by
  induction hs generalizing tr idx with
  | nil => exact List.prefix_refl _
  | cons h rest ih =>
    unfold RunBootNodeStage1.hodlers
    simp only
    split
    · simp [Env.call_fst]
    · split
      · simp [Env.call_fst]
      · split
        · simp [Env.call_fst, List.append_assoc]
        · split
          · simp [Env.call_fst, List.append_assoc]
          · refine List.IsPrefix.trans ?_ (ih (idx + 1) _)
            simp [Env.call_fst, List.append_assoc]

/-- The producers loop on a ledger whose calls before the `N`-th succeed and
whose `N`-th call fails: it runs as on the all-success ledger while fewer than
`N` calls are made, and stops with an error at the `N`-th. -/
theorem RunBootNodeStage1.producers_failAt (env : Env) (N : Nat)
    (hok : ∀ k c, k < N → env.ledger k c = none) (hfail : ∀ c, env.ledger N c ≠ none)
    (acct : String) (ps : List ProducerDef) (tr : List Call) (htr : tr.length < N) :
    ((RunBootNodeStage1.producers env acct ps tr).1.length < N
        ∧ RunBootNodeStage1.producers env acct ps tr
            = RunBootNodeStage1.producers env.ledgerOk acct ps tr)
      ∨ ((RunBootNodeStage1.producers env acct ps tr).1.length = N
        ∧ (RunBootNodeStage1.producers env acct ps tr).1
            <+: (RunBootNodeStage1.producers env.ledgerOk acct ps tr).1
        ∧ ∃ e, (RunBootNodeStage1.producers env acct ps tr).2 = some e) := by
  induction ps generalizing tr with
  | nil => exact Or.inl ⟨htr, rfl⟩
  | cons p rest ih =>
    rcases Nat.lt_or_ge (tr.length + 1) N with h | h
    · simp only [RunBootNodeStage1.producers, Env.call_of_lt env N hok tr _ h,
        Env.call_ledgerOk]
      exact ih _ (by simpa using h)
    · obtain ⟨e, he⟩ := Env.call_of_eq env N hfail tr
        (Call.NewAccount acct p.EOSIOAccountName p.pubKey) (by omega)
      refine Or.inr ?_
      simp only [RunBootNodeStage1.producers, he, Env.call_ledgerOk]
      refine ⟨by simp; omega, RunBootNodeStage1.producers_prefix _ _ _ _, _, rfl⟩

/-- The snapshot loop on a ledger whose calls before the `N`-th succeed and
whose `N`-th call fails. -/
theorem RunBootNodeStage1.hodlers_failAt (env : Env) (N : Nat)
    (hok : ∀ k c, k < N → env.ledger k c = none) (hfail : ∀ c, env.ledger N c ≠ none)
    (acct : String) (hs : List Holder) (idx : Nat) (tr : List Call) (htr : tr.length < N) :
    ((RunBootNodeStage1.hodlers env acct idx hs tr).1.length < N
        ∧ RunBootNodeStage1.hodlers env acct idx hs tr
            = RunBootNodeStage1.hodlers env.ledgerOk acct idx hs tr)
      ∨ ((RunBootNodeStage1.hodlers env acct idx hs tr).1.length = N
        ∧ (RunBootNodeStage1.hodlers env acct idx hs tr).1
            <+: (RunBootNodeStage1.hodlers env.ledgerOk acct idx hs tr).1
        ∧ ∃ e, (RunBootNodeStage1.hodlers env acct idx hs tr).2
            = some (Outcome.ret (some e))) := by
  induction hs generalizing tr idx with
  | nil => exact Or.inl ⟨htr, rfl⟩
  | cons h rest ih =>
    rcases Nat.lt_or_ge (tr.length + 1) N with h1 | h1
    · by_cases hshort : h.EthereumAddress.length < 6
      · refine Or.inl ?_
        simp only [RunBootNodeStage1.hodlers, Env.call_of_lt env N hok tr _ h1,
          Env.call_ledgerOk, hshort, if_true, and_true]
        simpa using h1
      · rcases Nat.lt_or_ge (tr.length + 2) N with h2 | h2
        · have hlen : (tr ++ [Call.NewAccount acct (destAccount idx) h.EOSPublicKey]).length + 1
              < N := by simpa using h2
          by_cases h5 : idx = 5
          · subst h5
            refine Or.inl ?_
            simp only [RunBootNodeStage1.hodlers, Env.call_of_lt env N hok tr _ h1,
              Env.call_of_lt env N hok _ _ hlen, Env.call_ledgerOk, hshort, if_false,
              if_true, and_true]
            simpa using h2
          · simp only [RunBootNodeStage1.hodlers, Env.call_of_lt env N hok tr _ h1,
              Env.call_of_lt env N hok _ _ hlen, Env.call_ledgerOk, hshort, if_false, h5]
            exact ih _ _ (by simpa using h2)
        · obtain ⟨e, he⟩ := Env.call_of_eq env N hfail
            (tr ++ [Call.NewAccount acct (destAccount idx) h.EOSPublicKey])
            (Call.Transfer (AN "eosio") (destAccount idx) h.Balance
              ("Welcome " ++ h.EthereumAddress.drop (h.EthereumAddress.length - 6)))
            (by simp; omega)
          refine Or.inr ?_
          have hpre := RunBootNodeStage1.hodlers_prefix env.ledgerOk acct rest (idx + 1)
            (tr ++ [Call.NewAccount acct (destAccount idx) h.EOSPublicKey]
              ++ [Call.Transfer (AN "eosio") (destAccount idx) h.Balance
                ("Welcome " ++ h.EthereumAddress.drop (h.EthereumAddress.length - 6))])
          simp only [RunBootNodeStage1.hodlers, Env.call_of_lt env N hok tr _ h1, he,
            Env.call_ledgerOk, hshort, if_false]
          refine ⟨by simp; omega, ?_, _, rfl⟩
          by_cases h5 : idx = 5
          · simp [h5]
          · simpa [h5] using hpre
    · obtain ⟨e, he⟩ := Env.call_of_eq env N hfail tr
        (Call.NewAccount acct (destAccount idx) h.EOSPublicKey) (by omega)
      refine Or.inr ?_
      have hpre := RunBootNodeStage1.hodlers_prefix env.ledgerOk acct (h :: rest) idx tr
      simp only [RunBootNodeStage1.hodlers, he, Env.call_ledgerOk] at hpre ⊢
      refine ⟨by simp; omega, ?_, _, rfl⟩
      have hp2 := RunBootNodeStage1.hodlers_prefix env.ledgerOk acct rest (idx + 1)
            (tr ++ [Call.NewAccount acct (destAccount idx) h.EOSPublicKey]
              ++ [Call.Transfer (AN "eosio") (destAccount idx) h.Balance
                ("Welcome " ++ h.EthereumAddress.drop (h.EthereumAddress.length - 6))])
      by_cases hshort : h.EthereumAddress.length < 6
      · simp [hshort]
      · by_cases h5 : idx = 5
        · simp [hshort, h5]
        · simp only [hshort, h5, if_false]
          exact List.IsPrefix.trans (by simp) hp2

theorem RunBootNodeStage1.producers_ledgerOk (env : Env) (acct : String)
    (ps : List ProducerDef) (tr : List Call) :
    RunBootNodeStage1.producers env.ledgerOk acct ps tr
      = (tr ++ ps.map (fun p => Call.NewAccount acct p.EOSIOAccountName p.pubKey), none) := by
  induction ps generalizing tr with
  | nil => simp [RunBootNodeStage1.producers]
  | cons p rest ih => simp [RunBootNodeStage1.producers, Env.call_ledgerOk, ih]

/-- Once the key is generated and imported and the hook dispatched, stage 1 is
its ledger statements run in a row. -/
theorem RunBootNodeStage1_eq_fromSetCode (b : BIOS) (env : Env) (key : PrivateKey)
    (hk : env.NewRandomPrivateKey = Except.ok key)
    (hi : env.ImportPrivateKey key.privKey = none)
    (hd : env.DispatchConfigReady (b.GenerateGenesisJSON key.pubKey) "eosio" key.pubKey
      key.privKey true = none) :
    b.RunBootNodeStage1 env = RunBootNodeStage1.fromSetCode b env := by
  simp only [BIOS.RunBootNodeStage1, BIOS.GenerateEphemeralPrivKey, hk, hi, hd]
  rfl

/-- Before the first call on the ledger, stage 1 does not depend on the
ledger. -/
theorem RunBootNodeStage1_of_setup_failed (b : BIOS) (env : Env)
    (h : ∀ key, env.NewRandomPrivateKey = Except.ok key →
      env.ImportPrivateKey key.privKey = none →
      env.DispatchConfigReady (b.GenerateGenesisJSON key.pubKey) "eosio" key.pubKey
        key.privKey true ≠ none) :
    (b.RunBootNodeStage1 env).trace = []
      ∧ b.RunBootNodeStage1 env = b.RunBootNodeStage1 env.ledgerOk := by
  have e1 : env.ledgerOk.NewRandomPrivateKey = env.NewRandomPrivateKey := rfl
  have e2 : env.ledgerOk.ImportPrivateKey = env.ImportPrivateKey := rfl
  have e3 : env.ledgerOk.DispatchConfigReady = env.DispatchConfigReady := rfl
  unfold BIOS.RunBootNodeStage1 BIOS.GenerateEphemeralPrivKey
  rw [e1, e2, e3]
  cases hk : env.NewRandomPrivateKey with
  | error err => exact ⟨rfl, rfl⟩
  | ok key =>
    simp only
    cases hi : env.ImportPrivateKey key.privKey with
    | some err => exact ⟨rfl, rfl⟩
    | none =>
      simp only
      cases hd : env.DispatchConfigReady (b.GenerateGenesisJSON key.pubKey) "eosio" key.pubKey
          key.privKey true with
      | some err => exact ⟨rfl, rfl⟩
      | none => exact absurd hd (h key hk hi)

theorem RunBootNodeStage1.fromUpdateAuth_prefix (env : Env) (tr : List Call) :
    tr <+: (RunBootNodeStage1.fromUpdateAuth env tr).trace := by
  unfold RunBootNodeStage1.fromUpdateAuth
  simp only
  split <;> simp [Env.call_fst]

theorem RunBootNodeStage1.fromSnapshot_prefix (b : BIOS) (env : Env) (tr : List Call) :
    tr <+: (RunBootNodeStage1.fromSnapshot b env tr).trace := by
  unfold RunBootNodeStage1.fromSnapshot
  simp only
  split
  · exact RunBootNodeStage1.hodlers_prefix _ _ _ _ _
  · exact (RunBootNodeStage1.hodlers_prefix _ _ _ _ _).trans
      (RunBootNodeStage1.fromUpdateAuth_prefix _ _)

theorem RunBootNodeStage1.fromIssue_prefix (b : BIOS) (env : Env) (tr : List Call) :
    tr <+: (RunBootNodeStage1.fromIssue b env tr).trace := by
  unfold RunBootNodeStage1.fromIssue
  simp only
  split
  · simp [Env.call_fst]
  · exact List.IsPrefix.trans (by simp [Env.call_fst])
      (RunBootNodeStage1.fromSnapshot_prefix _ _ _)

theorem RunBootNodeStage1.fromProducers_prefix (b : BIOS) (env : Env) (tr : List Call) :
    tr <+: (RunBootNodeStage1.fromProducers b env tr).trace := by
  unfold RunBootNodeStage1.fromProducers
  simp only
  split
  · exact RunBootNodeStage1.producers_prefix _ _ _ _
  · exact (RunBootNodeStage1.producers_prefix _ _ _ _).trans
      (RunBootNodeStage1.fromIssue_prefix _ _ _)

theorem RunBootNodeStage1.hodlers_prefix_fromSnapshot (b : BIOS) (env : Env) (tr : List Call) :
    (RunBootNodeStage1.hodlers env (AN "eosio") 0 b.Snapshot tr).1
      <+: (RunBootNodeStage1.fromSnapshot b env tr).trace := by
  unfold RunBootNodeStage1.fromSnapshot
  simp only
  split
  · exact List.prefix_refl _
  · exact RunBootNodeStage1.fromUpdateAuth_prefix _ _

theorem RunBootNodeStage1.producers_prefix_fromProducers (b : BIOS) (env : Env)
    (tr : List Call) :
    (RunBootNodeStage1.producers env (AN "eosio") b.ShuffledProducers tr).1
      <+: (RunBootNodeStage1.fromProducers b env tr).trace := by
  unfold RunBootNodeStage1.fromProducers
  simp only
  split
  · exact List.prefix_refl _
  · exact RunBootNodeStage1.fromIssue_prefix _ _ _

theorem RunBootNodeStage1.fromUpdateAuth_failAt (env : Env) (N : Nat)
    (hok : ∀ k c, k < N → env.ledger k c = none) (hfail : ∀ c, env.ledger N c ≠ none)
    (tr : List Call) (htr : tr.length < N) :
    Run.StopsAt N (RunBootNodeStage1.fromUpdateAuth env tr)
      (RunBootNodeStage1.fromUpdateAuth env.ledgerOk tr) := by
  rcases Nat.lt_or_ge (tr.length + 1) N with h | h
  · refine Or.inl ?_
    simp only [RunBootNodeStage1.fromUpdateAuth, Env.call_of_lt env N hok tr _ h,
      Env.call_ledgerOk, and_true]
    simpa using h
  · obtain ⟨e, he⟩ := Env.call_of_eq env N hfail tr
      (Call.SignPushActions RunBootNodeStage1.updateAuths) (by omega)
    refine Or.inr ?_
    simp only [RunBootNodeStage1.fromUpdateAuth, he, Env.call_ledgerOk]
    exact ⟨by simp; omega, List.prefix_refl _, _, rfl⟩

theorem RunBootNodeStage1.fromSnapshot_failAt (b : BIOS) (env : Env) (N : Nat)
    (hok : ∀ k c, k < N → env.ledger k c = none) (hfail : ∀ c, env.ledger N c ≠ none)
    (tr : List Call) (htr : tr.length < N) :
    Run.StopsAt N (RunBootNodeStage1.fromSnapshot b env tr)
      (RunBootNodeStage1.fromSnapshot b env.ledgerOk tr) := by
  rcases RunBootNodeStage1.hodlers_failAt env N hok hfail (AN "eosio") b.Snapshot 0 tr htr
    with ⟨hlt, heq⟩ | ⟨hlen, hpre, e, he⟩
  · unfold RunBootNodeStage1.fromSnapshot
    simp only
    rw [heq] at hlt ⊢
    cases hr : (RunBootNodeStage1.hodlers env.ledgerOk (AN "eosio") 0 b.Snapshot tr).2 with
    | some o => exact Or.inl ⟨hlt, rfl⟩
    | none => exact RunBootNodeStage1.fromUpdateAuth_failAt env N hok hfail _ hlt
  · refine Or.inr ⟨?_, ?_, e, ?_⟩
    · simpa only [RunBootNodeStage1.fromSnapshot, he] using hlen
    · have := hpre.trans (RunBootNodeStage1.hodlers_prefix_fromSnapshot b env.ledgerOk tr)
      simpa only [RunBootNodeStage1.fromSnapshot, he] using this
    · simp only [RunBootNodeStage1.fromSnapshot, he]

theorem RunBootNodeStage1.fromIssue_failAt (b : BIOS) (env : Env) (N : Nat)
    (hok : ∀ k c, k < N → env.ledger k c = none) (hfail : ∀ c, env.ledger N c ≠ none)
    (tr : List Call) (htr : tr.length < N) :
    Run.StopsAt N (RunBootNodeStage1.fromIssue b env tr)
      (RunBootNodeStage1.fromIssue b env.ledgerOk tr) := by
  rcases Nat.lt_or_ge (tr.length + 1) N with h | h
  · simp only [RunBootNodeStage1.fromIssue, Env.call_of_lt env N hok tr _ h,
      Env.call_ledgerOk]
    exact RunBootNodeStage1.fromSnapshot_failAt b env N hok hfail _ (by simpa using h)
  · obtain ⟨e, he⟩ := Env.call_of_eq env N hfail tr
      (Call.Issue "eosio"
        { Amount := 10000000000000, Symbol := { Precision := 4, Symbol := "EOS" } }) (by omega)
    refine Or.inr ?_
    simp only [RunBootNodeStage1.fromIssue, he, Env.call_ledgerOk]
    exact ⟨by simp; omega, RunBootNodeStage1.fromSnapshot_prefix _ _ _, _, rfl⟩

theorem RunBootNodeStage1.fromProducers_failAt (b : BIOS) (env : Env) (N : Nat)
    (hok : ∀ k c, k < N → env.ledger k c = none) (hfail : ∀ c, env.ledger N c ≠ none)
    (tr : List Call) (htr : tr.length < N) :
    Run.StopsAt N (RunBootNodeStage1.fromProducers b env tr)
      (RunBootNodeStage1.fromProducers b env.ledgerOk tr) := by
  rcases RunBootNodeStage1.producers_failAt env N hok hfail (AN "eosio") b.ShuffledProducers
    tr htr with ⟨hlt, heq⟩ | ⟨hlen, hpre, e, he⟩
  · unfold RunBootNodeStage1.fromProducers
    simp only
    rw [heq] at hlt ⊢
    cases hr : (RunBootNodeStage1.producers env.ledgerOk (AN "eosio") b.ShuffledProducers
        tr).2 with
    | some o => exact Or.inl ⟨hlt, rfl⟩
    | none => exact RunBootNodeStage1.fromIssue_failAt b env N hok hfail _ hlt
  · refine Or.inr ⟨?_, ?_, e, ?_⟩
    · simpa only [RunBootNodeStage1.fromProducers, he] using hlen
    · have := hpre.trans (RunBootNodeStage1.producers_prefix_fromProducers b env.ledgerOk tr)
      simpa only [RunBootNodeStage1.fromProducers, he] using this
    · simp only [RunBootNodeStage1.fromProducers, he]

theorem RunBootNodeStage1.fromSetCode_failAt (b : BIOS) (env : Env) (N : Nat) (hN : 1 ≤ N)
    (hok : ∀ k c, k < N → env.ledger k c = none) (hfail : ∀ c, env.ledger N c ≠ none) :
    Run.StopsAt N (RunBootNodeStage1.fromSetCode b env)
      (RunBootNodeStage1.fromSetCode b env.ledgerOk) := by
  rcases Nat.lt_or_ge 1 N with h | h
  · simp only [RunBootNodeStage1.fromSetCode,
      Env.call_of_lt env N hok [] _ (by simpa using h), Env.call_ledgerOk]
    exact RunBootNodeStage1.fromProducers_failAt b env N hok hfail _ (by simpa using h)
  · obtain ⟨e, he⟩ := Env.call_of_eq env N hfail []
      (Call.SetCode (AN "eosio") b.Config.SystemContract.CodePath
        b.Config.SystemContract.ABIPath) (by simp; omega)
    refine Or.inr ?_
    simp only [RunBootNodeStage1.fromSetCode, he, Env.call_ledgerOk]
    exact ⟨by simp; omega, RunBootNodeStage1.fromProducers_prefix _ _ _, _, rfl⟩

/-- Stage 1 on a ledger whose calls before the `N`-th succeed and whose `N`-th
call fails stops at the `N`-th call of the all-success run. -/
theorem RunBootNodeStage1_stopsAt (b : BIOS) (env : Env) (N : Nat) (hN : 1 ≤ N)
    (hok : ∀ k c, k < N → env.ledger k c = none) (hfail : ∀ c, env.ledger N c ≠ none) :
    Run.StopsAt N (b.RunBootNodeStage1 env) (b.RunBootNodeStage1 env.ledgerOk) := by
  by_cases hs : ∃ key, env.NewRandomPrivateKey = Except.ok key
      ∧ env.ImportPrivateKey key.privKey = none
      ∧ env.DispatchConfigReady (b.GenerateGenesisJSON key.pubKey) "eosio" key.pubKey
        key.privKey true = none
  · obtain ⟨key, hk, hi, hd⟩ := hs
    rw [RunBootNodeStage1_eq_fromSetCode b env key hk hi hd,
      RunBootNodeStage1_eq_fromSetCode b env.ledgerOk key hk hi hd]
    exact RunBootNodeStage1.fromSetCode_failAt b env N hN hok hfail
  · have h := RunBootNodeStage1_of_setup_failed b env
      (fun key hk hi hd => hs ⟨key, hk, hi, hd⟩)
    exact Or.inl ⟨by rw [h.1]; exact hN, h.2⟩

/-- C2.  On a ledger whose calls before the `N`-th succeed and whose `N`-th call
fails, for `N ≥ 1` not exceeding the number of calls of the all-success run,
`RunBootNodeStage1` returns a non-nil error and has made exactly `N` calls, the
first `N` calls of the all-success run: none is issued after the failing one. -/
theorem RunBootNodeStage1_aborts_at_failing_call (b : BIOS) (env : Env) (N : Nat)
    (hN : 1 ≤ N) (hle : N ≤ (b.RunBootNodeStage1 env.ledgerOk).trace.length)
    (hok : ∀ k c, k < N → env.ledger k c = none) (hfail : ∀ c, env.ledger N c ≠ none) :
    (∃ e, (b.RunBootNodeStage1 env).outcome = Outcome.ret (some e))
      ∧ (b.RunBootNodeStage1 env).trace.length = N
      ∧ (b.RunBootNodeStage1 env).trace = (b.RunBootNodeStage1 env.ledgerOk).trace.take N := by
  rcases RunBootNodeStage1_stopsAt b env N hN hok hfail with ⟨hlt, heq⟩ | ⟨hlen, hpre, he⟩
  · rw [heq] at hlt
    omega
  · refine ⟨he, hlen, ?_⟩
    rw [List.prefix_iff_eq_take.mp hpre, hlen]

/-- C2 on the roster `[a, b, c]` with the two-holder snapshot, the ledger
failing on its 4th call, the third `NewAccount`: the run stops there with the
error of that producer, before `Issue` and the seeding. -/
theorem RunBootNodeStage1_aborts_at_failing_call_witness :
    ((∃ e, ((sampleBIOS [sampleProducer "a", sampleProducer "b", sampleProducer "c"]
          sampleSnapshot "a").RunBootNodeStage1 (Env.failAt sampleKey 4 "boom")).outcome
        = Outcome.ret (some e))
      ∧ ((sampleBIOS [sampleProducer "a", sampleProducer "b", sampleProducer "c"]
          sampleSnapshot "a").RunBootNodeStage1 (Env.failAt sampleKey 4 "boom")).trace.length = 4
      ∧ ((sampleBIOS [sampleProducer "a", sampleProducer "b", sampleProducer "c"]
          sampleSnapshot "a").RunBootNodeStage1 (Env.failAt sampleKey 4 "boom")).trace
        = ((sampleBIOS [sampleProducer "a", sampleProducer "b", sampleProducer "c"]
          sampleSnapshot "a").RunBootNodeStage1 (Env.failAt sampleKey 4 "boom").ledgerOk).trace.take 4)
      ∧ (sampleBIOS [sampleProducer "a", sampleProducer "b", sampleProducer "c"]
          sampleSnapshot "a").RunBootNodeStage1 (Env.failAt sampleKey 4 "boom")
        = { trace := [Call.SetCode "eosio" "eosio.system.wasm" "eosio.system.abi",
                      Call.NewAccount "eosio" "a" "EOSa", Call.NewAccount "eosio" "b" "EOSb",
                      Call.NewAccount "eosio" "c" "EOSc"],
            outcome := Outcome.ret (some "newaccount c: boom") } :=
  ⟨RunBootNodeStage1_aborts_at_failing_call
      (sampleBIOS [sampleProducer "a", sampleProducer "b", sampleProducer "c"] sampleSnapshot "a")
      (Env.failAt sampleKey 4 "boom") 4 (by decide) (by decide)
      (by
        intro k c hk
        have : k ≠ 4 := by omega
        simp [Env.failAt, this])
      (by intro c; simp [Env.failAt]),
    by decide⟩

/-! ## Boot-node stage 1: seeding and the final authority update -/

/-- On a ledger on which every call succeeds, the snapshot loop entered at an
index `idx ≤ 5` seeds the holders up to the one of index 5, all with an address
of 6 bytes at least, and no other. -/
theorem RunBootNodeStage1.hodlers_ledgerOk (env : Env) (hs : List Holder) :
    ∀ (idx : Nat) (tr : List Call), idx ≤ 5 →
      (∀ h ∈ hs.take (6 - idx), 6 ≤ h.EthereumAddress.length) →
      RunBootNodeStage1.hodlers env.ledgerOk (AN "eosio") idx hs tr
        = (tr ++ RunBootNodeStage1.seedCalls idx (hs.take (6 - idx)), none) := by
  induction hs with
  | nil => intro idx tr _ _; simp [RunBootNodeStage1.hodlers, RunBootNodeStage1.seedCalls]
  | cons h rest ih =>
    intro idx tr hidx hlen
    obtain ⟨k, hk⟩ : ∃ k, 6 - idx = k + 1 := ⟨5 - idx, by omega⟩
    rw [hk, List.take_succ_cons] at hlen ⊢
    have hh : ¬ h.EthereumAddress.length < 6 := by
      have := hlen h (List.mem_cons_self _ _)
      omega
    by_cases h5 : idx = 5
    · subst h5
      have hk0 : k = 0 := by omega
      subst hk0
      simp [RunBootNodeStage1.hodlers, RunBootNodeStage1.seedCalls, Env.call_ledgerOk, hh]
    · have hk' : 6 - (idx + 1) = k := by omega
      have hrec := ih (idx + 1)
        (tr ++ [Call.NewAccount (AN "eosio") (destAccount idx) h.EOSPublicKey]
          ++ [Call.Transfer (AN "eosio") (destAccount idx) h.Balance
            ("Welcome " ++ h.EthereumAddress.drop (h.EthereumAddress.length - 6))])
        (by omega) (by rw [hk']; exact fun x hx => hlen x (List.mem_cons_of_mem _ hx))
      rw [hk'] at hrec
      simp only [RunBootNodeStage1.hodlers, RunBootNodeStage1.seedCalls, Env.call_ledgerOk, hh,
        h5, if_false, hrec]
      simp

/-- What stage 1 does on a ledger on which every call succeeds, once the key is
generated and imported and the hook dispatched, when the first six holders
have addresses of 6 bytes at least: `SetCode`, one `NewAccount` per producer,
`Issue`, the seeding of the first six holders of the snapshot (of all of them
when there are fewer) and the `updateauth` batch; the run returns nil. -/
theorem RunBootNodeStage1_ledgerOk (b : BIOS) (env : Env) (key : PrivateKey)
    (hk : env.NewRandomPrivateKey = Except.ok key)
    (hi : env.ImportPrivateKey key.privKey = none)
    (hd : env.DispatchConfigReady (b.GenerateGenesisJSON key.pubKey) "eosio" key.pubKey
      key.privKey true = none)
    (hlen : ∀ h ∈ b.Snapshot.take 6, 6 ≤ h.EthereumAddress.length) :
    b.RunBootNodeStage1 env.ledgerOk
      = { trace :=
            [Call.SetCode "eosio" b.Config.SystemContract.CodePath
              b.Config.SystemContract.ABIPath]
            ++ b.ShuffledProducers.map
                (fun p => Call.NewAccount "eosio" p.EOSIOAccountName p.pubKey)
            ++ [Call.Issue "eosio"
                { Amount := 10000000000000, Symbol := { Precision := 4, Symbol := "EOS" } }]
            ++ RunBootNodeStage1.seedCalls 0 (b.Snapshot.take 6)
            ++ [Call.SignPushActions RunBootNodeStage1.updateAuths],
          outcome := Outcome.ret none } := by
  rw [RunBootNodeStage1_eq_fromSetCode b env.ledgerOk key hk hi hd]
  simp only [RunBootNodeStage1.fromSetCode, RunBootNodeStage1.fromProducers,
    RunBootNodeStage1.fromIssue, RunBootNodeStage1.fromSnapshot,
    RunBootNodeStage1.fromUpdateAuth, Env.call_ledgerOk,
    RunBootNodeStage1.producers_ledgerOk,
    RunBootNodeStage1.hodlers_ledgerOk env b.Snapshot 0 _ (by omega) hlen]
  simp [AN]

/-- C3 on the code, at a snapshot of seven holders and a ledger on which every
call succeeds: the loop is left after the sixth holder, the seventh gets neither
its account nor its transfer, and the run still returns nil. -/
theorem RunBootNodeStage1_seven_holders :
    (sampleBIOS [] sevenHolders "a").RunBootNodeStage1 (Env.allOk sampleKey)
      = { trace :=
            [Call.SetCode "eosio" "eosio.system.wasm" "eosio.system.abi",
             Call.Issue "eosio" ⟨10000000000000, ⟨4, "EOS"⟩⟩,
             Call.NewAccount "eosio" "genesis1" "EOS0xAAAAAAAAAAA1",
             Call.Transfer "eosio" "genesis1" ⟨1, ⟨4, "EOS"⟩⟩ "Welcome AAAAA1",
             Call.NewAccount "eosio" "genesis2" "EOS0xAAAAAAAAAAA2",
             Call.Transfer "eosio" "genesis2" ⟨2, ⟨4, "EOS"⟩⟩ "Welcome AAAAA2",
             Call.NewAccount "eosio" "genesis3" "EOS0xAAAAAAAAAAA3",
             Call.Transfer "eosio" "genesis3" ⟨3, ⟨4, "EOS"⟩⟩ "Welcome AAAAA3",
             Call.NewAccount "eosio" "genesis4" "EOS0xAAAAAAAAAAA4",
             Call.Transfer "eosio" "genesis4" ⟨4, ⟨4, "EOS"⟩⟩ "Welcome AAAAA4",
             Call.NewAccount "eosio" "genesis5" "EOS0xAAAAAAAAAAA5",
             Call.Transfer "eosio" "genesis5" ⟨5, ⟨4, "EOS"⟩⟩ "Welcome AAAAA5",
             Call.NewAccount "eosio" "genesisa" "EOS0xAAAAAAAAAAA6",
             Call.Transfer "eosio" "genesisa" ⟨6, ⟨4, "EOS"⟩⟩ "Welcome AAAAA6",
             Call.SignPushActions RunBootNodeStage1.updateAuths],
          outcome := Outcome.ret none }
      ∧ sevenHolders.length = 7 := by
  decide

/-- C10 on the code, at a holder whose address `0x12` has 4 bytes and a ledger
on which every call succeeds: after the holder's `NewAccount` the slice
expression of the memo panics, and no `Transfer` is issued. -/
theorem RunBootNodeStage1_short_address :
    (sampleBIOS [] [sampleHolder "0x12" 100] "a").RunBootNodeStage1 (Env.allOk sampleKey)
      = { trace :=
            [Call.SetCode "eosio" "eosio.system.wasm" "eosio.system.abi",
             Call.Issue "eosio" ⟨10000000000000, ⟨4, "EOS"⟩⟩,
             Call.NewAccount "eosio" "genesis1" "EOS0x12"],
          outcome := Outcome.panic "runtime error: slice bounds out of range" } := by
  decide

theorem RunBootNodeStage1.hodlers_ne_ret_none (env : Env) (acct : String)
    (hs : List Holder) (idx : Nat) (tr : List Call) :
    (RunBootNodeStage1.hodlers env acct idx hs tr).2 ≠ some (Outcome.ret none) := by
  induction hs generalizing tr idx with
  | nil => simp [RunBootNodeStage1.hodlers]
  | cons h rest ih =>
    unfold RunBootNodeStage1.hodlers
    simp only
    split
    · simp
    · split
      · simp
      · split
        · simp
        · split
          · simp
          · exact ih _ _

theorem RunBootNodeStage1.fromUpdateAuth_last (env : Env) (tr : List Call) :
    (RunBootNodeStage1.fromUpdateAuth env tr).trace.getLast?
      = some (Call.SignPushActions RunBootNodeStage1.updateAuths) := by
  unfold RunBootNodeStage1.fromUpdateAuth
  simp only
  split <;> simp [Env.call_fst]

theorem RunBootNodeStage1.fromSnapshot_last (b : BIOS) (env : Env) (tr : List Call)
    (h : (RunBootNodeStage1.fromSnapshot b env tr).outcome = Outcome.ret none) :
    (RunBootNodeStage1.fromSnapshot b env tr).trace.getLast?
      = some (Call.SignPushActions RunBootNodeStage1.updateAuths) := by
  unfold RunBootNodeStage1.fromSnapshot at h ⊢
  simp only at h ⊢
  split at h
  · next o ho =>
    subst h
    exact absurd ho (RunBootNodeStage1.hodlers_ne_ret_none _ _ _ _ _)
  · exact RunBootNodeStage1.fromUpdateAuth_last _ _

theorem RunBootNodeStage1.fromIssue_last (b : BIOS) (env : Env) (tr : List Call)
    (h : (RunBootNodeStage1.fromIssue b env tr).outcome = Outcome.ret none) :
    (RunBootNodeStage1.fromIssue b env tr).trace.getLast?
      = some (Call.SignPushActions RunBootNodeStage1.updateAuths) := by
  unfold RunBootNodeStage1.fromIssue at h ⊢
  simp only at h ⊢
  split at h
  · simp at h
  · exact RunBootNodeStage1.fromSnapshot_last _ _ _ h

theorem RunBootNodeStage1.fromProducers_last (b : BIOS) (env : Env) (tr : List Call)
    (h : (RunBootNodeStage1.fromProducers b env tr).outcome = Outcome.ret none) :
    (RunBootNodeStage1.fromProducers b env tr).trace.getLast?
      = some (Call.SignPushActions RunBootNodeStage1.updateAuths) := by
  unfold RunBootNodeStage1.fromProducers at h ⊢
  simp only at h ⊢
  split at h
  · simp at h
  · exact RunBootNodeStage1.fromIssue_last _ _ _ h

theorem RunBootNodeStage1.fromSetCode_last (b : BIOS) (env : Env)
    (h : (RunBootNodeStage1.fromSetCode b env).outcome = Outcome.ret none) :
    (RunBootNodeStage1.fromSetCode b env).trace.getLast?
      = some (Call.SignPushActions RunBootNodeStage1.updateAuths) := by
  unfold RunBootNodeStage1.fromSetCode at h ⊢
  simp only at h ⊢
  split at h
  · simp at h
  · exact RunBootNodeStage1.fromProducers_last _ _ _ h

/-- A run of stage 1 that returns nil got through the generation of the key,
its import into the signer and the hook. -/
theorem RunBootNodeStage1_setup_of_ret_none (b : BIOS) (env : Env)
    (h : (b.RunBootNodeStage1 env).outcome = Outcome.ret none) :
    ∃ key, env.NewRandomPrivateKey = Except.ok key
      ∧ env.ImportPrivateKey key.privKey = none
      ∧ env.DispatchConfigReady (b.GenerateGenesisJSON key.pubKey) "eosio" key.pubKey
        key.privKey true = none := by
  unfold BIOS.RunBootNodeStage1 BIOS.GenerateEphemeralPrivKey at h
  cases hk : env.NewRandomPrivateKey with
  | error err => simp [hk] at h
  | ok key =>
    cases hi : env.ImportPrivateKey key.privKey with
    | some err => simp [hk, hi] at h
    | none =>
      cases hd : env.DispatchConfigReady (b.GenerateGenesisJSON key.pubKey) "eosio" key.pubKey
          key.privKey true with
      | some err => simp [hk, hi, hd] at h
      | none => exact ⟨key, rfl, hi, hd⟩

/-- C6, as stated, fails on every run: on the empty roster and snapshot with a
ledger on which every call succeeds, the run returns nil and its last call is
the batch of two `updateauth` actions, but each new authority has threshold 0,
which is not greater than the weight (0) of the ephemeral key in it. -/
theorem RunBootNodeStage1_threshold_counterexample :
    ((sampleBIOS [] [] "a").RunBootNodeStage1 (Env.allOk sampleKey)).outcome = Outcome.ret none
      ∧ ((sampleBIOS [] [] "a").RunBootNodeStage1 (Env.allOk sampleKey)).trace.getLast?
        = some (Call.SignPushActions RunBootNodeStage1.updateAuths)
      ∧ ∀ a ∈ RunBootNodeStage1.updateAuths,
          a.Data.Threshold = 0 ∧ ¬ a.Data.keyWeight sampleKey.pubKey < a.Data.Threshold := by
  decide

/-- C6, amended.  On a run of `RunBootNodeStage1` that returns nil, the last
ledger call is a single `SignPushActions` batch holding exactly two authority
updates of the account `eosio`, the first for `active` (parent `owner`) and the
second for `owner`; each new authority has threshold 0 and holds no key and no
account, so every key, the ephemeral key included, carries weight 0 in it. -/
theorem RunBootNodeStage1_last_call_updateauth (b : BIOS) (env : Env)
    (h : (b.RunBootNodeStage1 env).outcome = Outcome.ret none) :
    (b.RunBootNodeStage1 env).trace.getLast? = some (Call.SignPushActions
        [ { Account := "eosio", Permission := "active", Parent := "owner",
            Data := { Threshold := 0, Keys := [], Accounts := [] },
            UsingPermission := "active" },
          { Account := "eosio", Permission := "owner", Parent := "",
            Data := { Threshold := 0, Keys := [], Accounts := [] },
            UsingPermission := "owner" } ])
      ∧ ∀ a ∈ RunBootNodeStage1.updateAuths, ∀ key,
          a.Account = "eosio" ∧ a.Data.Threshold = 0 ∧ a.Data.keyWeight key = 0 := by
  obtain ⟨key, hk, hi, hd⟩ := RunBootNodeStage1_setup_of_ret_none b env h
  rw [RunBootNodeStage1_eq_fromSetCode b env key hk hi hd] at h ⊢
  refine ⟨RunBootNodeStage1.fromSetCode_last b env h, ?_⟩
  intro a ha key
  simp only [RunBootNodeStage1.updateAuths, system.NewUpdateAuth, List.mem_cons,
    List.mem_singleton, List.not_mem_nil, or_false] at ha
  rcases ha with rfl | rfl <;> exact ⟨rfl, rfl, rfl⟩

/-- C6, amended, on the roster `[a, b, c]` and the two-holder snapshot with a
ledger on which every call succeeds. -/
theorem RunBootNodeStage1_last_call_updateauth_witness :
    ((sampleBIOS [sampleProducer "a", sampleProducer "b", sampleProducer "c"] sampleSnapshot
        "a").RunBootNodeStage1 (Env.allOk sampleKey)).trace.getLast?
      = some (Call.SignPushActions
        [ { Account := "eosio", Permission := "active", Parent := "owner",
            Data := { Threshold := 0, Keys := [], Accounts := [] },
            UsingPermission := "active" },
          { Account := "eosio", Permission := "owner", Parent := "",
            Data := { Threshold := 0, Keys := [], Accounts := [] },
            UsingPermission := "owner" } ]) :=
  (RunBootNodeStage1_last_call_updateauth
    (sampleBIOS [sampleProducer "a", sampleProducer "b", sampleProducer "c"] sampleSnapshot "a")
    (Env.allOk sampleKey) (by decide)).1

/-! ## The derivation of snapshot account names -/

/-- The comment of `bios.go`: 7108558431253954560 stringifies to `genesis`
(trailing dots are trimmed). -/
theorem NameToString_genesis : NameToString 7108558431253954560 = "genesis" := by
  decide

/-- The 64-bit value of the seeding loop: the four bytes of `uint32(idx+1)` in
reversed order below the constant `0x62a6ac3b` in the high half. -/
theorem intAcct_eq (idx : Nat) :
    intAcct idx =
      (idx + 1) % 2 ^ 32 / 2 ^ 24 % 256 + (idx + 1) % 2 ^ 32 / 2 ^ 16 % 256 * 2 ^ 8
        + (idx + 1) % 2 ^ 32 / 2 ^ 8 % 256 * 2 ^ 16 + (idx + 1) % 2 ^ 32 % 256 * 2 ^ 24
        + 0x62a6ac3b * 2 ^ 32 := by
  simp only [intAcct, BigEndian.PutUint32, LittleEndian.Uint64, List.cons_append, List.nil_append,
    List.getD_cons_zero, List.getD_cons_succ, List.drop_succ_cons, List.drop_zero]
  omega

theorem intAcct_lt (idx : Nat) : intAcct idx < 2 ^ 64 := by
  rw [intAcct_eq]
  omega

theorem uint32_bytes (v : Nat) (hv : v < 2 ^ 32) :
    v = v / 2 ^ 24 % 256 * 2 ^ 24 + v / 2 ^ 16 % 256 * 2 ^ 16 + v / 2 ^ 8 % 256 * 2 ^ 8
      + v % 256 := by
  omega

theorem intAcct_injective (i j : Nat) (hi : i + 1 < 2 ^ 32) (hj : j + 1 < 2 ^ 32)
    (h : intAcct i = intAcct j) : i = j := by
  rw [intAcct_eq, intAcct_eq, Nat.mod_eq_of_lt hi, Nat.mod_eq_of_lt hj] at h
  have b0 : (i + 1) % 256 < 256 := Nat.mod_lt _ (by norm_num)
  have b1 : (i + 1) / 2 ^ 8 % 256 < 256 := Nat.mod_lt _ (by norm_num)
  have b2 : (i + 1) / 2 ^ 16 % 256 < 256 := Nat.mod_lt _ (by norm_num)
  have b3 : (i + 1) / 2 ^ 24 % 256 < 256 := Nat.mod_lt _ (by norm_num)
  have c0 : (j + 1) % 256 < 256 := Nat.mod_lt _ (by norm_num)
  have c1 : (j + 1) / 2 ^ 8 % 256 < 256 := Nat.mod_lt _ (by norm_num)
  have c2 : (j + 1) / 2 ^ 16 % 256 < 256 := Nat.mod_lt _ (by norm_num)
  have c3 : (j + 1) / 2 ^ 24 % 256 < 256 := Nat.mod_lt _ (by norm_num)
  have ei := uint32_bytes (i + 1) hi
  have ej := uint32_bytes (j + 1) hj
  revert ei ej
  generalize (i + 1) % 256 = x0 at *
  generalize (i + 1) / 2 ^ 8 % 256 = x1 at *
  generalize (i + 1) / 2 ^ 16 % 256 = x2 at *
  generalize (i + 1) / 2 ^ 24 % 256 = x3 at *
  generalize (j + 1) % 256 = y0 at *
  generalize (j + 1) / 2 ^ 8 % 256 = y1 at *
  generalize (j + 1) / 2 ^ 16 % 256 = y2 at *
  generalize (j + 1) / 2 ^ 24 % 256 = y3 at *
  intro ei ej
  have h3 : x3 = y3 := by clear ei ej; omega
  have h2 : x2 = y2 := by omega
  have h1 : x1 = y1 := by omega
  have h0 : x0 = y0 := by omega
  omega

/-- The characters of the alphabet of names are pairwise distinct. -/
theorem base32Alphabet_injective :
    ∀ i j : Fin 32, base32Alphabet.getD i.1 '.' = base32Alphabet.getD j.1 '.' → i = j := by
  decide

theorem base32Alphabet_eq (a c : Nat) (ha : a < 32) (hc : c < 32)
    (h : base32Alphabet.getD a '.' = base32Alphabet.getD c '.') : a = c := by
  have := base32Alphabet_injective ⟨a, ha⟩ ⟨c, hc⟩ h
  exact congrArg Fin.val this

/-- The 13 characters `eos.NameToString` writes before trimming. -/
theorem NameToString.loop_eq (v : Nat) :
    NameToString.loop 13 0 v [] =
      [ base32Alphabet.getD (v / 16 / 32 / 32 / 32 / 32 / 32 / 32 / 32 / 32 / 32 / 32 / 32 % 32) '.',
        base32Alphabet.getD (v / 16 / 32 / 32 / 32 / 32 / 32 / 32 / 32 / 32 / 32 / 32 % 32) '.',
        base32Alphabet.getD (v / 16 / 32 / 32 / 32 / 32 / 32 / 32 / 32 / 32 / 32 % 32) '.',
        base32Alphabet.getD (v / 16 / 32 / 32 / 32 / 32 / 32 / 32 / 32 / 32 % 32) '.',
        base32Alphabet.getD (v / 16 / 32 / 32 / 32 / 32 / 32 / 32 / 32 % 32) '.',
        base32Alphabet.getD (v / 16 / 32 / 32 / 32 / 32 / 32 / 32 % 32) '.',
        base32Alphabet.getD (v / 16 / 32 / 32 / 32 / 32 / 32 % 32) '.',
        base32Alphabet.getD (v / 16 / 32 / 32 / 32 / 32 % 32) '.',
        base32Alphabet.getD (v / 16 / 32 / 32 / 32 % 32) '.',
        base32Alphabet.getD (v / 16 / 32 / 32 % 32) '.',
        base32Alphabet.getD (v / 16 / 32 % 32) '.',
        base32Alphabet.getD (v / 16 % 32) '.',
        base32Alphabet.getD (v % 16) '.' ] := rfl

theorem NameToString.loop_length (v : Nat) : (NameToString.loop 13 0 v []).length = 13 := by
  rw [NameToString.loop_eq]
  rfl

/-- Trimming the trailing dots of two character sequences of the same length
gives the same result only when the sequences are the same. -/
theorem rdropWhile_dot_eq (l : List Char) :
    ∃ k, l = l.rdropWhile (fun c => c == '.') ++ List.replicate k '.' := by
  induction l using List.reverseRecOn with
  | nil => exact ⟨0, rfl⟩
  | append_singleton l c ih =>
    by_cases hc : c = '.'
    · obtain ⟨k, hk⟩ := ih
      refine ⟨k + 1, ?_⟩
      subst hc
      rw [List.rdropWhile_concat_pos _ _ _ (by simp), List.replicate_succ', ← List.append_assoc,
        ← hk]
    · refine ⟨0, ?_⟩
      rw [List.rdropWhile_concat_neg _ _ _ (by simpa using hc)]
      simp

theorem rdropWhile_dot_injective (l₁ l₂ : List Char) (hlen : l₁.length = l₂.length)
    (h : l₁.rdropWhile (fun c => c == '.') = l₂.rdropWhile (fun c => c == '.')) :
    l₁ = l₂ := by
  have h₁ := rdropWhile_dot_eq l₁
  have h₂ := rdropWhile_dot_eq l₂
  rw [h] at h₁
  generalize l₂.rdropWhile (fun c => c == '.') = a at h₁ h₂
  obtain ⟨k₁, h₁⟩ := h₁
  obtain ⟨k₂, h₂⟩ := h₂
  subst h₁ h₂
  simp only [List.length_append, List.length_replicate, Nat.add_left_cancel_iff] at hlen
  rw [hlen]

theorem div_mod_eq (a c n : Nat) (h1 : a / n = c / n) (h2 : a % n = c % n) : a = c := by
  rw [← Nat.div_add_mod a n, ← Nat.div_add_mod c n, h1, h2]

/-- The rendering `eos.NameToString` is injective on 64-bit values. -/
theorem NameToString_injective (v w : Nat) (hv : v < 2 ^ 64) (hw : w < 2 ^ 64)
    (h : NameToString v = NameToString w) : v = w := by
  have h1 : (NameToString.loop 13 0 v []).rdropWhile (fun c => c == '.')
      = (NameToString.loop 13 0 w []).rdropWhile (fun c => c == '.') :=
    congrArg String.data h
  have h2 := rdropWhile_dot_injective _ _
    (by rw [NameToString.loop_length, NameToString.loop_length]) h1
  rw [NameToString.loop_eq, NameToString.loop_eq] at h2
  simp only [List.cons.injEq, and_true] at h2
  obtain ⟨e12, e11, e10, e9, e8, e7, e6, e5, e4, e3, e2, e1, e0⟩ := h2
  have d12 := base32Alphabet_eq _ _ (Nat.mod_lt _ (by norm_num)) (Nat.mod_lt _ (by norm_num)) e12
  have d11 := base32Alphabet_eq _ _ (Nat.mod_lt _ (by norm_num)) (Nat.mod_lt _ (by norm_num)) e11
  have d10 := base32Alphabet_eq _ _ (Nat.mod_lt _ (by norm_num)) (Nat.mod_lt _ (by norm_num)) e10
  have d9 := base32Alphabet_eq _ _ (Nat.mod_lt _ (by norm_num)) (Nat.mod_lt _ (by norm_num)) e9
  have d8 := base32Alphabet_eq _ _ (Nat.mod_lt _ (by norm_num)) (Nat.mod_lt _ (by norm_num)) e8
  have d7 := base32Alphabet_eq _ _ (Nat.mod_lt _ (by norm_num)) (Nat.mod_lt _ (by norm_num)) e7
  have d6 := base32Alphabet_eq _ _ (Nat.mod_lt _ (by norm_num)) (Nat.mod_lt _ (by norm_num)) e6
  have d5 := base32Alphabet_eq _ _ (Nat.mod_lt _ (by norm_num)) (Nat.mod_lt _ (by norm_num)) e5
  have d4 := base32Alphabet_eq _ _ (Nat.mod_lt _ (by norm_num)) (Nat.mod_lt _ (by norm_num)) e4
  have d3 := base32Alphabet_eq _ _ (Nat.mod_lt _ (by norm_num)) (Nat.mod_lt _ (by norm_num)) e3
  have d2 := base32Alphabet_eq _ _ (Nat.mod_lt _ (by norm_num)) (Nat.mod_lt _ (by norm_num)) e2
  have d1 := base32Alphabet_eq _ _ (Nat.mod_lt _ (by norm_num)) (Nat.mod_lt _ (by norm_num)) e1
  have d0 := base32Alphabet_eq _ _ (by omega) (by omega) e0
  have bv : v / 16 / 32 / 32 / 32 / 32 / 32 / 32 / 32 / 32 / 32 / 32 / 32 < 32 := by omega
  have bw : w / 16 / 32 / 32 / 32 / 32 / 32 / 32 / 32 / 32 / 32 / 32 / 32 < 32 := by omega
  rw [Nat.mod_eq_of_lt bv, Nat.mod_eq_of_lt bw] at d12
  have q11 := div_mod_eq _ _ 32 d12 d11
  have q10 := div_mod_eq _ _ 32 q11 d10
  have q9 := div_mod_eq _ _ 32 q10 d9
  have q8 := div_mod_eq _ _ 32 q9 d8
  have q7 := div_mod_eq _ _ 32 q8 d7
  have q6 := div_mod_eq _ _ 32 q7 d6
  have q5 := div_mod_eq _ _ 32 q6 d5
  have q4 := div_mod_eq _ _ 32 q5 d4
  have q3 := div_mod_eq _ _ 32 q4 d3
  have q2 := div_mod_eq _ _ 32 q3 d2
  have q1 := div_mod_eq _ _ 32 q2 d1
  exact div_mod_eq _ _ 16 q1 d0

/-- C4.  For two distinct holder positions `p ≠ q` with `1 ≤ p, q < 2^32`, the
64-bit values the seeding loop derives for them (at the loop indices `p - 1` and
`q - 1`) differ, and so do the account names rendered from these values. -/
theorem destAccount_injective (p q : Nat) (hp : 1 ≤ p) (hp' : p < 2 ^ 32) (hq : 1 ≤ q)
    (hq' : q < 2 ^ 32) (hpq : p ≠ q) :
    intAcct (p - 1) ≠ intAcct (q - 1) ∧ destAccount (p - 1) ≠ destAccount (q - 1) := by
  have hne : intAcct (p - 1) ≠ intAcct (q - 1) := by
    intro h
    have := intAcct_injective (p - 1) (q - 1) (by omega) (by omega) h
    omega
  refine ⟨hne, fun h => hne ?_⟩
  exact NameToString_injective _ _ (intAcct_lt _) (intAcct_lt _) h

/-- C4 at the positions 1 and 2: the values differ, the names are `genesis1`
and `genesis2`. -/
theorem destAccount_injective_witness :
    (intAcct 0 ≠ intAcct 1 ∧ destAccount 0 ≠ destAccount 1)
      ∧ destAccount 0 = "genesis1" ∧ destAccount 1 = "genesis2" :=
  ⟨destAccount_injective 1 2 (by decide) (by decide) (by decide) (by decide) (by decide),
    by decide, by decide⟩

/-! ## The genesis document: properties -/

/-- The year of the era lies in 0..399. -/
theorem yoe_bounds (doe : Int) (h0 : 0 ≤ doe) (h1 : doe ≤ 146096) :
    0 ≤ (doe - doe / 1460 + doe / 36524 - doe / 146096) / 365
      ∧ (doe - doe / 1460 + doe / 36524 - doe / 146096) / 365 ≤ 399 := by
  omega

/-- The day of the year, counted from March 1st, lies in 0..364, or 0..365
when the year that starts the next January is a leap year. -/
theorem doy_bounds (doe yoe : Int) (h0 : 0 ≤ doe) (h1 : doe ≤ 146096)
    (hy : yoe = (doe - doe / 1460 + doe / 36524 - doe / 146096) / 365) :
    0 ≤ doe - (365 * yoe + yoe / 4 - yoe / 100)
      ∧ doe - (365 * yoe + yoe / 4 - yoe / 100)
          ≤ 364 + ((yoe + 1) / 4 - yoe / 4) - ((yoe + 1) / 100 - yoe / 100) + (yoe + 1) / 400 := by
  by_cases h4 : doe = 146096
  · subst h4
    subst hy
    norm_num
  · obtain ⟨b, hb⟩ : ∃ b, b = doe / 36524 := ⟨_, rfl⟩
    obtain ⟨k, hk⟩ : ∃ k, k = (doe - 36524 * b) / 1461 := ⟨_, rfl⟩
    obtain ⟨s, hs⟩ : ∃ s, s = doe - 36524 * b - 1461 * k := ⟨_, rfl⟩
    have hb3 : 0 ≤ b ∧ b ≤ 3 := by omega
    have hk24 : 0 ≤ k ∧ k ≤ 24 := by omega
    have hs0 : 0 ≤ s ∧ s ≤ 1460 := by omega
    have hc : doe / 146096 = 0 := by omega
    have ha : (doe / 1460 = 25 * b + k ∧ 24 * b + k + s < 1460)
        ∨ (doe / 1460 = 25 * b + k + 1 ∧ 1460 ≤ 24 * b + k + s) := by omega
    have hdoe : doe = 36524 * b + 1461 * k + s := by omega
    have hcent : 1461 * k + s < 36524 := by omega
    rw [← hb, hc] at hy
    clear hb hk hs h4 hc
    subst hdoe
    rcases ha with ⟨ha, ht⟩ | ⟨ha, ht⟩
    · rw [ha] at hy
      have hyoe : yoe = 100 * b + 4 * k + s / 365 := by omega
      clear hy ha
      have hj : s / 365 = 0 ∨ s / 365 = 1 ∨ s / 365 = 2 ∨ s / 365 = 3 := by omega
      have e4 : yoe / 4 = 25 * b + k := by omega
      have e100 : yoe / 100 = b := by omega
      have f400 : 0 ≤ (yoe + 1) / 400 := by omega
      have f100 : (yoe + 1) / 100 = b ∨ ((yoe + 1) / 100 = b + 1 ∧ k = 24 ∧ s / 365 = 3) := by
        omega
      have f4 : ((yoe + 1) / 4 = 25 * b + k ∧ s / 365 ≤ 2)
          ∨ ((yoe + 1) / 4 = 25 * b + k + 1 ∧ s / 365 = 3) := by omega
      rw [e4, e100]
      rcases f4 with ⟨f4, hj⟩ | ⟨f4, hj⟩ <;> rcases f100 with f100 | ⟨f100, hk', hj'⟩ <;>
        rw [f4, f100] <;> omega
    · rw [ha] at hy
      have hyoe : yoe = 100 * b + 4 * k + 3 := by omega
      have e4 : yoe / 4 = 25 * b + k := by omega
      have e100 : yoe / 100 = b := by omega
      have f400 : 0 ≤ (yoe + 1) / 400 := by omega
      have f100 : (yoe + 1) / 100 = b ∨ ((yoe + 1) / 100 = b + 1 ∧ k = 24) := by omega
      have f4 : (yoe + 1) / 4 = 25 * b + k + 1 := by omega
      rw [e4, e100, f4]
      rcases f100 with f100 | ⟨f100, hk'⟩ <;> rw [f100] <;> omega

theorem leap_four (yoe era : Int) :
    ((yoe + 1) / 4 - yoe / 4 = 1 ∧ 4 ∣ yoe + era * 400 + 1)
      ∨ ((yoe + 1) / 4 - yoe / 4 = 0 ∧ ¬ 4 ∣ yoe + era * 400 + 1) := by
  omega

theorem leap_hundred (yoe era : Int) :
    ((yoe + 1) / 100 - yoe / 100 = 1 ∧ 100 ∣ yoe + era * 400 + 1)
      ∨ ((yoe + 1) / 100 - yoe / 100 = 0 ∧ ¬ 100 ∣ yoe + era * 400 + 1) := by
  omega

theorem leap_four_hundred (yoe era : Int) (h0 : 0 ≤ yoe) (h1 : yoe ≤ 399) :
    ((yoe + 1) / 400 = 1 ∧ 400 ∣ yoe + era * 400 + 1)
      ∨ ((yoe + 1) / 400 = 0 ∧ ¬ 400 ∣ yoe + era * 400 + 1) := by
  omega

/-- The date of a day count is a date of the calendar, and counting its days
gives the day count back. -/
theorem civilFromDays_spec (z : Int) :
    1 ≤ (civilFromDays z).2.1 ∧ (civilFromDays z).2.1 ≤ 12 ∧ 1 ≤ (civilFromDays z).2.2
      ∧ (civilFromDays z).2.2 ≤ daysInMonth (civilFromDays z).1 (civilFromDays z).2.1
      ∧ daysFromCivil (civilFromDays z).1 (civilFromDays z).2.1 (civilFromDays z).2.2 = z := by
  obtain ⟨era, hera⟩ : ∃ era, era = (z + 719468) / 146097 := ⟨_, rfl⟩
  obtain ⟨doe, hdoe⟩ : ∃ doe, doe = z + 719468 - era * 146097 := ⟨_, rfl⟩
  obtain ⟨yoe, hyoe⟩ : ∃ yoe, yoe = (doe - doe / 1460 + doe / 36524 - doe / 146096) / 365 :=
    ⟨_, rfl⟩
  obtain ⟨doy, hdoy⟩ : ∃ doy, doy = doe - (365 * yoe + yoe / 4 - yoe / 100) := ⟨_, rfl⟩
  obtain ⟨mp, hmp⟩ : ∃ mp, mp = (5 * doy + 2) / 153 := ⟨_, rfl⟩
  have h0 : 0 ≤ doe ∧ doe ≤ 146096 := by omega
  have hy := yoe_bounds doe h0.1 h0.2
  rw [← hyoe] at hy
  have hd := doy_bounds doe yoe h0.1 h0.2 hyoe
  rw [← hdoy] at hd
  have hm : 0 ≤ mp ∧ mp ≤ 11 := by omega
  simp only [civilFromDays, daysFromCivil, daysInMonth, ← hera, ← hdoe, ← hyoe, ← hdoy, ← hmp]
  have hz : z = era * 146097 + doe - 719468 := by omega
  have hdoe' : doe = 365 * yoe + yoe / 4 - yoe / 100 + doy := by omega
  clear hera hdoe hyoe hdoy
  have hq : (yoe + era * 400) / 400 = era := by omega
  obtain ⟨l4, hl4⟩ : ∃ l, l = (yoe + 1) / 4 - yoe / 4 := ⟨_, rfl⟩
  obtain ⟨l100, hl100⟩ : ∃ l, l = (yoe + 1) / 100 - yoe / 100 := ⟨_, rfl⟩
  obtain ⟨l400, hl400⟩ : ∃ l, l = (yoe + 1) / 400 := ⟨_, rfl⟩
  have f4 := leap_four yoe era
  have f100 := leap_hundred yoe era
  have f400 := leap_four_hundred yoe era hy.1 hy.2
  rw [← hl4] at f4 hd
  rw [← hl100] at f100 hd
  rw [← hl400] at f400 hd
  clear hl4 hl100 hl400
  have hmp' : mp = 0 ∨ mp = 1 ∨ mp = 2 ∨ mp = 3 ∨ mp = 4 ∨ mp = 5 ∨ mp = 6 ∨ mp = 7 ∨ mp = 8
      ∨ mp = 9 ∨ mp = 10 ∨ mp = 11 := by omega
  rcases hmp' with h | h | h | h | h | h | h | h | h | h | h | h <;> subst h <;>
    norm_num <;> simp only [hq, add_sub_cancel_right] <;> omega

/-- The days from 0000-01-01 to 9999-12-31 have a year in 0..9999. -/
theorem civilFromDays_year (z : Int) (h0 : -719528 ≤ z) (h1 : z ≤ 2932896) :
    0 ≤ (civilFromDays z).1 ∧ (civilFromDays z).1 ≤ 9999 := by
  obtain ⟨era, hera⟩ : ∃ era, era = (z + 719468) / 146097 := ⟨_, rfl⟩
  obtain ⟨doe, hdoe⟩ : ∃ doe, doe = z + 719468 - era * 146097 := ⟨_, rfl⟩
  obtain ⟨yoe, hyoe⟩ : ∃ yoe, yoe = (doe - doe / 1460 + doe / 36524 - doe / 146096) / 365 :=
    ⟨_, rfl⟩
  obtain ⟨doy, hdoy⟩ : ∃ doy, doy = doe - (365 * yoe + yoe / 4 - yoe / 100) := ⟨_, rfl⟩
  obtain ⟨mp, hmp⟩ : ∃ mp, mp = (5 * doy + 2) / 153 := ⟨_, rfl⟩
  have hd0 : 0 ≤ doe ∧ doe ≤ 146096 := by omega
  have hy := yoe_bounds doe hd0.1 hd0.2
  rw [← hyoe] at hy
  have hd := doy_bounds doe yoe hd0.1 hd0.2 hyoe
  rw [← hdoy] at hd
  simp only [civilFromDays, ← hera, ← hdoe, ← hyoe, ← hdoy, ← hmp]
  have he : -1 ≤ era ∧ era ≤ 24 := by omega
  have hlow : era = -1 → yoe = 399 ∧ 306 ≤ doy := by
    intro h
    have h2 : 146037 ≤ doe := by omega
    have h3 : yoe = 399 := by omega
    subst h3
    exact ⟨rfl, by omega⟩
  have hhigh : era = 24 → yoe ≤ 398 ∨ (yoe = 399 ∧ doy ≤ 305) := by
    intro h
    have h2 : doe ≤ 146036 := by omega
    by_cases h3 : yoe = 399
    · subst h3
      exact Or.inr ⟨rfl, by omega⟩
    · exact Or.inl (by omega)
  split_ifs <;> omega

theorem digitVal_ofNat (k : Nat) (hk : k ≤ 9) : digitVal (Char.ofNat (48 + k)) = some (k : Int) := by
  interval_cases k <;> rfl

theorem appendInt_of_digits (n width : Nat) (buf : List Char)
    (h : appendInt.digits 20 n [] = buf) :
    appendInt (n : Int) width = List.replicate (width - buf.length) '0' ++ buf := by
  have hneg : ¬ ((n : Int) < 0) := by omega
  simp only [appendInt, Int.natAbs_ofNat, h, hneg, if_false, List.nil_append]

/-- A number below 100 is written on two digits. -/
theorem appendInt_two (n : Nat) (hn : n ≤ 99) :
    appendInt (n : Int) 2 = [Char.ofNat (48 + n / 10), Char.ofNat (48 + n % 10)] := by
  by_cases h : n ≥ 10
  · have h2 : ¬ n / 10 ≥ 10 := by omega
    rw [appendInt_of_digits n 2 [Char.ofNat (48 + n / 10), Char.ofNat (48 + n % 10)]
      (by simp only [appendInt.digits, h, h2, if_true, if_false])]
    rfl
  · have h3 : n / 10 = 0 := by omega
    have h4 : n % 10 = n := by omega
    rw [appendInt_of_digits n 2 [Char.ofNat (48 + n)] (by simp only [appendInt.digits, h, if_false]), h3, h4]
    rfl

/-- A number below 10000 is written on four digits. -/
theorem appendInt_four (n : Nat) (hn : n ≤ 9999) :
    appendInt (n : Int) 4 = [Char.ofNat (48 + n / 1000), Char.ofNat (48 + n / 100 % 10),
      Char.ofNat (48 + n / 10 % 10), Char.ofNat (48 + n % 10)] := by
  by_cases h1 : n ≥ 1000
  · have a1 : n ≥ 10 := by omega
    have a2 : n / 10 ≥ 10 := by omega
    have a3 : n / 10 / 10 ≥ 10 := by omega
    have a4 : ¬ n / 10 / 10 / 10 ≥ 10 := by omega
    have e1 : n / 10 / 10 / 10 = n / 1000 := by omega
    have e2 : n / 10 / 10 % 10 = n / 100 % 10 := by omega
    rw [appendInt_of_digits n 4 [Char.ofNat (48 + n / 1000), Char.ofNat (48 + n / 100 % 10),
      Char.ofNat (48 + n / 10 % 10), Char.ofNat (48 + n % 10)]
      (by simp only [appendInt.digits, a1, a2, a3, a4, if_true, if_false]; rw [e1, e2])]
    rfl
  · by_cases h2 : n ≥ 100
    · have a1 : n ≥ 10 := by omega
      have a2 : n / 10 ≥ 10 := by omega
      have a3 : ¬ n / 10 / 10 ≥ 10 := by omega
      have e1 : n / 1000 = 0 := by omega
      have e2 : n / 10 / 10 = n / 100 % 10 := by omega
      rw [appendInt_of_digits n 4 [Char.ofNat (48 + n / 100 % 10),
        Char.ofNat (48 + n / 10 % 10), Char.ofNat (48 + n % 10)]
        (by simp only [appendInt.digits, a1, a2, a3, if_true, if_false]; rw [e2]), e1]
      rfl
    · by_cases h3 : n ≥ 10
      · have a2 : ¬ n / 10 ≥ 10 := by omega
        have e1 : n / 1000 = 0 := by omega
        have e2 : n / 100 = 0 := by omega
        have e3 : n / 10 % 10 = n / 10 := by omega
        rw [appendInt_of_digits n 4 [Char.ofNat (48 + n / 10), Char.ofNat (48 + n % 10)]
          (by simp only [appendInt.digits, h3, a2, if_true, if_false]), e1, e2, e3]
        rfl
      · have e1 : n / 1000 = 0 := by omega
        have e2 : n / 100 = 0 := by omega
        have e3 : n / 10 = 0 := by omega
        have e4 : n % 10 = n := by omega
        rw [appendInt_of_digits n 4 [Char.ofNat (48 + n)]
          (by simp only [appendInt.digits, h3, if_false]), e1, e2, e3, e4]
        rfl

/-- The text of a date and time whose fields are in range. -/
theorem Time.Format_fields (t : Time) (h0 : -62167219200 ≤ t.unixSec + t.zoneOffset)
    (h1 : t.unixSec + t.zoneOffset < 253402300800) :
    ∃ Y M D H I S : Nat, Y ≤ 9999 ∧ 1 ≤ M ∧ M ≤ 12 ∧ 1 ≤ D ∧ (D : Int) ≤ daysInMonth Y M
      ∧ H < 24 ∧ I < 60 ∧ S < 60
      ∧ daysFromCivil Y M D * 86400 + H * 3600 + I * 60 + S = t.unixSec + t.zoneOffset
      ∧ t.Format =
        [Char.ofNat (48 + Y / 1000), Char.ofNat (48 + Y / 100 % 10),
          Char.ofNat (48 + Y / 10 % 10), Char.ofNat (48 + Y % 10), '-',
          Char.ofNat (48 + M / 10), Char.ofNat (48 + M % 10), '-',
          Char.ofNat (48 + D / 10), Char.ofNat (48 + D % 10), 'T',
          Char.ofNat (48 + H / 10), Char.ofNat (48 + H % 10), ':',
          Char.ofNat (48 + I / 10), Char.ofNat (48 + I % 10), ':',
          Char.ofNat (48 + S / 10), Char.ofNat (48 + S % 10)] := by
  obtain ⟨abs, habs⟩ : ∃ abs, abs = t.unixSec + t.zoneOffset := ⟨_, rfl⟩
  rw [← habs] at h0 h1
  have hdays : -719528 ≤ abs / 86400 ∧ abs / 86400 ≤ 2932896 := by omega
  have hspec := civilFromDays_spec (abs / 86400)
  have hyear := civilFromDays_year (abs / 86400) hdays.1 hdays.2
  obtain ⟨hm1, hm2, hd1, hd2, hrt⟩ := hspec
  obtain ⟨Y, hY⟩ := Int.eq_ofNat_of_zero_le hyear.1
  obtain ⟨M, hM⟩ := Int.eq_ofNat_of_zero_le (show 0 ≤ (civilFromDays (abs / 86400)).2.1 by omega)
  obtain ⟨D, hD⟩ := Int.eq_ofNat_of_zero_le (show 0 ≤ (civilFromDays (abs / 86400)).2.2 by omega)
  obtain ⟨H, hH⟩ := Int.eq_ofNat_of_zero_le (show 0 ≤ abs % 86400 / 3600 by omega)
  obtain ⟨I, hI⟩ := Int.eq_ofNat_of_zero_le (show 0 ≤ abs % 86400 % 3600 / 60 by omega)
  obtain ⟨S, hS⟩ := Int.eq_ofNat_of_zero_le (show 0 ≤ abs % 86400 % 60 by omega)
  have hdim : (D : Int) ≤ daysInMonth Y M := by rw [← hY, ← hM, ← hD]; exact hd2
  have hD31 : D ≤ 31 := by
    have : daysInMonth Y M ≤ 31 := by
      unfold daysInMonth
      split_ifs <;> omega
    omega
  refine ⟨Y, M, D, H, I, S, by omega, by omega, by omega, by omega, hdim, by omega, by omega,
    by omega, ?_, ?_⟩
  · rw [← hY, ← hM, ← hD, hrt, ← hH, ← hI, ← hS]
    omega
  · simp only [Time.Format, ← habs, hY, hM, hD, hH, hI, hS]
    rw [appendInt_four Y (by omega), appendInt_two M (by omega), appendInt_two D (by omega),
      appendInt_two H (by omega), appendInt_two I (by omega), appendInt_two S (by omega)]
    rfl

/-- The text of a date and time whose fields are in range has the shape
`YYYY-MM-DDTHH:MM:SS` and reads back as its Unix time. -/
theorem parseTimestamp_fields (Y M D H I S : Nat) (hY : Y ≤ 9999) (hM1 : 1 ≤ M) (hM : M ≤ 12)
    (hD1 : 1 ≤ D) (hD : (D : Int) ≤ daysInMonth Y M) (hH : H < 24) (hI : I < 60) (hS : S < 60) :
    parseTimestamp
        [Char.ofNat (48 + Y / 1000), Char.ofNat (48 + Y / 100 % 10),
          Char.ofNat (48 + Y / 10 % 10), Char.ofNat (48 + Y % 10), '-',
          Char.ofNat (48 + M / 10), Char.ofNat (48 + M % 10), '-',
          Char.ofNat (48 + D / 10), Char.ofNat (48 + D % 10), 'T',
          Char.ofNat (48 + H / 10), Char.ofNat (48 + H % 10), ':',
          Char.ofNat (48 + I / 10), Char.ofNat (48 + I % 10), ':',
          Char.ofNat (48 + S / 10), Char.ofNat (48 + S % 10)]
        = some (daysFromCivil Y M D * 86400 + H * 3600 + I * 60 + S)
      ∧ isTimestampShape
        [Char.ofNat (48 + Y / 1000), Char.ofNat (48 + Y / 100 % 10),
          Char.ofNat (48 + Y / 10 % 10), Char.ofNat (48 + Y % 10), '-',
          Char.ofNat (48 + M / 10), Char.ofNat (48 + M % 10), '-',
          Char.ofNat (48 + D / 10), Char.ofNat (48 + D % 10), 'T',
          Char.ofNat (48 + H / 10), Char.ofNat (48 + H % 10), ':',
          Char.ofNat (48 + I / 10), Char.ofNat (48 + I % 10), ':',
          Char.ofNat (48 + S / 10), Char.ofNat (48 + S % 10)] = true := by
  have hD31 : D ≤ 31 := by
    have : daysInMonth Y M ≤ 31 := by
      unfold daysInMonth
      split_ifs <;> omega
    omega
  have y3 := digitVal_ofNat (Y / 1000) (by omega)
  have y2 := digitVal_ofNat (Y / 100 % 10) (by omega)
  have y1 := digitVal_ofNat (Y / 10 % 10) (by omega)
  have y0 := digitVal_ofNat (Y % 10) (by omega)
  have m1 := digitVal_ofNat (M / 10) (by omega)
  have m0 := digitVal_ofNat (M % 10) (by omega)
  have d1 := digitVal_ofNat (D / 10) (by omega)
  have d0 := digitVal_ofNat (D % 10) (by omega)
  have h1 := digitVal_ofNat (H / 10) (by omega)
  have h0 := digitVal_ofNat (H % 10) (by omega)
  have i1 := digitVal_ofNat (I / 10) (by omega)
  have i0 := digitVal_ofNat (I % 10) (by omega)
  have s1 := digitVal_ofNat (S / 10) (by omega)
  have s0 := digitVal_ofNat (S % 10) (by omega)
  have eY : ((Y / 1000 : Nat) : Int) * 1000 + ((Y / 100 % 10 : Nat) : Int) * 100
      + ((Y / 10 % 10 : Nat) : Int) * 10 + ((Y % 10 : Nat) : Int) = Y := by omega
  have eM : ((M / 10 : Nat) : Int) * 10 + ((M % 10 : Nat) : Int) = M := by omega
  have eD : ((D / 10 : Nat) : Int) * 10 + ((D % 10 : Nat) : Int) = D := by omega
  have eH : ((H / 10 : Nat) : Int) * 10 + ((H % 10 : Nat) : Int) = H := by omega
  have eI : ((I / 10 : Nat) : Int) * 10 + ((I % 10 : Nat) : Int) = I := by omega
  have eS : ((S / 10 : Nat) : Int) * 10 + ((S % 10 : Nat) : Int) = S := by omega
  constructor
  · simp only [parseTimestamp, y3, y2, y1, y0, m1, m0, d1, d0, h1, h0, i1, i0, s1, s0, eY, eM,
      eD, eH, eI, eS]
    rw [if_pos]
    exact ⟨by omega, by omega, by omega, hD, by omega, by omega, by omega⟩
  · simp only [isTimestampShape, List.all_cons, List.all_nil, y3, y2, y1, y0, m1, m0, d1, d0,
      h1, h0, i1, i0, s1, s0, Option.isSome_some, Bool.and_self, beq_self_eq_true]

/-- What `encodeState.string` writes for one byte below `0x80`. -/
theorem json.stringLoop_cons (fuel : Nat) (c : Char) (rest : List Char) (hc : c.toNat < 0x80) :
    json.stringLoop (fuel + 1) (c :: rest)
      = (if htmlSafeSet c then [c] else json.escapeByte c) ++ json.stringLoop fuel rest := by
  simp only [json.stringLoop, hc, if_true]

theorem hex4_escape :
    ∀ n : Fin 128, hex4 '0' '0' (hextable.getD (n.1 / 16) '0') (hextable.getD (n.1 % 16) '0')
      = some n.1 := by
  decide

/-- Reading back what was written for one byte below `0x80` gives the byte. -/
theorem json.readItem_encoded (c : Char) (rest : List Char) (hc : c.toNat < 0x80) :
    json.readItem ((if htmlSafeSet c then [c] else json.escapeByte c) ++ rest)
      = some ([c], rest) := by
  by_cases hs : htmlSafeSet c = true
  · have h := hs
    simp only [htmlSafeSet, Bool.and_eq_true, decide_eq_true_eq, Bool.not_eq_true',
      Bool.or_eq_false_iff, beq_eq_false_iff_ne, ne_eq] at h
    obtain ⟨h20, ⟨⟨⟨hq, -⟩, -⟩, -⟩, hb⟩ := h
    have h20' : ¬ c.toNat < 0x20 := by omega
    simp only [hs, if_true, List.singleton_append, json.readItem, hq, hb, h20', if_false]
  · simp only [hs, Bool.false_eq_true, if_false]
    by_cases h1 : c = '\\' ∨ c = '"'
    · rcases h1 with rfl | rfl <;> rfl
    · by_cases h2 : c = '\n'
      · subst h2; rfl
      · by_cases h3 : c = '\r'
        · subst h3; rfl
        · by_cases h4 : c = '\t'
          · subst h4; rfl
          · have hx := hex4_escape ⟨c.toNat, hc⟩
            have hbs : ¬ c = '\\' := fun h => h1 (Or.inl h)
            simp only [json.escapeByte, h1, h2, h3, h4, if_false, List.cons_append,
              List.nil_append, json.readItem]
            simp only [hx]
            have hsur : ¬ (0xD800 ≤ c.toNat ∧ c.toNat ≤ 0xDFFF) := by omega
            have henc : utf8.EncodeRune c.toNat = [c] := by
              simp only [utf8.EncodeRune, hc, if_true, Char.ofNat_toNat]
            simp [hsur, henc]

/-- What is written for one byte below `0x80` is not empty and does not start
with a double quote. -/
theorem json.encoded_cons (c : Char) :
    ∃ x xs, (if htmlSafeSet c then [c] else json.escapeByte c) = x :: xs ∧ x ≠ '"' := by
  by_cases hs : htmlSafeSet c = true
  · have h := hs
    simp only [htmlSafeSet, Bool.and_eq_true, decide_eq_true_eq, Bool.not_eq_true',
      Bool.or_eq_false_iff, beq_eq_false_iff_ne, ne_eq] at h
    exact ⟨c, [], by simp [hs], h.2.1.1.1.1⟩
  · refine ⟨'\\', (json.escapeByte c).tail, ?_, by decide⟩
    simp only [hs, Bool.false_eq_true, if_false, json.escapeByte]
    split_ifs <;> rfl

theorem utf8.inRange_iff (c : Char) (lo hi : Nat) :
    utf8.inRange c lo hi = true ↔ lo ≤ c.toNat ∧ c.toNat ≤ hi := by
  simp [utf8.inRange]

/-- A well-formed encoding of more than one byte at the head of a string: its
bytes are `0x80` or more each, and they are the encoding of the rune
`utf8.DecodeRuneInString` reads. -/
theorem utf8.DecodeRuneInString_wellFormed (c : Char) (rest : List Char)
    (hc : ¬ c.toNat < 0x80)
    (hv : ¬ ((utf8.DecodeRuneInString (c :: rest)).1 = RuneError
      ∧ (utf8.DecodeRuneInString (c :: rest)).2 = 1)) :
    ∃ raw tail, c :: rest = raw ++ tail
      ∧ raw.length = (utf8.DecodeRuneInString (c :: rest)).2
      ∧ tail = rest.drop ((utf8.DecodeRuneInString (c :: rest)).2 - 1)
      ∧ (∀ x ∈ raw, 0x80 ≤ x.toNat)
      ∧ utf8.EncodeRune (utf8.DecodeRuneInString (c :: rest)).1 = raw := by
  unfold utf8.DecodeRuneInString at hv ⊢
  simp only [hc, if_false] at hv ⊢
  by_cases h2 : 0xC2 ≤ c.toNat ∧ c.toNat ≤ 0xDF
  · simp only [h2, and_self, if_true] at hv ⊢
    match rest, hv with
    | [], hv => simp at hv
    | c1 :: tail, hv =>
      simp only at hv ⊢
      by_cases hr : utf8.inRange c1 0x80 0xBF = true
      · simp only [hr, if_true] at hv ⊢
        rw [utf8.inRange_iff] at hr
        refine ⟨[c, c1], tail, rfl, rfl, rfl, ?_, ?_⟩
        · intro x hx
          simp only [List.mem_cons, List.mem_singleton, List.not_mem_nil, or_false] at hx
          rcases hx with rfl | rfl <;> omega
        · have l1 : ¬ c.toNat % 32 * 64 + c1.toNat % 64 < 0x80 := by omega
          have l2 : c.toNat % 32 * 64 + c1.toNat % 64 < 0x800 := by omega
          have e1 : 0xC0 + (c.toNat % 32 * 64 + c1.toNat % 64) / 64 = c.toNat := by omega
          have e2 : 0x80 + (c.toNat % 32 * 64 + c1.toNat % 64) % 64 = c1.toNat := by omega
          simp only [utf8.EncodeRune, l1, l2, if_true, if_false, e1, e2, Char.ofNat_toNat]
      · simp [hr] at hv
  · simp only [h2, if_false] at hv ⊢
    by_cases h3 : 0xE0 ≤ c.toNat ∧ c.toNat ≤ 0xEF
    · simp only [h3, and_self, if_true] at hv ⊢
      match rest, hv with
      | [], hv => simp at hv
      | [_], hv => simp at hv
      | c1 :: c2 :: tail, hv =>
        simp only at hv ⊢
        by_cases hr : utf8.inRange c1 (if c.toNat = 0xE0 then 0xA0 else 0x80)
            (if c.toNat = 0xED then 0x9F else 0xBF) = true ∧ utf8.inRange c2 0x80 0xBF = true
        · simp only [hr, and_self, if_true] at hv ⊢
          rw [utf8.inRange_iff, utf8.inRange_iff] at hr
          obtain ⟨⟨hlo, hhi⟩, hc2⟩ := hr
          have hlo' : 0x80 ≤ c1.toNat ∧ (c.toNat = 0xE0 → 0xA0 ≤ c1.toNat) := by
            split_ifs at hlo <;> omega
          have hhi' : c1.toNat ≤ 0xBF := by
            split_ifs at hhi <;> omega
          refine ⟨[c, c1, c2], tail, rfl, rfl, rfl, ?_, ?_⟩
          · intro x hx
            simp only [List.mem_cons, List.mem_singleton, List.not_mem_nil, or_false] at hx
            rcases hx with rfl | rfl | rfl <;> omega
          · have l1 : ¬ c.toNat % 16 * 4096 + c1.toNat % 64 * 64 + c2.toNat % 64 < 0x80 := by
              omega
            have l2 : ¬ c.toNat % 16 * 4096 + c1.toNat % 64 * 64 + c2.toNat % 64 < 0x800 := by
              omega
            have l3 : c.toNat % 16 * 4096 + c1.toNat % 64 * 64 + c2.toNat % 64 < 0x10000 := by
              omega
            have e1 : 0xE0 + (c.toNat % 16 * 4096 + c1.toNat % 64 * 64 + c2.toNat % 64) / 4096
                = c.toNat := by omega
            have e2 : 0x80 + (c.toNat % 16 * 4096 + c1.toNat % 64 * 64 + c2.toNat % 64) / 64 % 64
                = c1.toNat := by omega
            have e3 : 0x80 + (c.toNat % 16 * 4096 + c1.toNat % 64 * 64 + c2.toNat % 64) % 64
                = c2.toNat := by omega
            simp only [utf8.EncodeRune, l1, l2, l3, if_true, if_false, e1, e2, e3,
              Char.ofNat_toNat]
        · simp [hr] at hv
    · simp only [h3, if_false] at hv ⊢
      by_cases h4 : 0xF0 ≤ c.toNat ∧ c.toNat ≤ 0xF4
      · simp only [h4, and_self, if_true] at hv ⊢
        match rest, hv with
        | [], hv => simp at hv
        | [_], hv => simp at hv
        | [_, _], hv => simp at hv
        | c1 :: c2 :: c3 :: tail, hv =>
          simp only at hv ⊢
          by_cases hr : utf8.inRange c1 (if c.toNat = 0xF0 then 0x90 else 0x80)
              (if c.toNat = 0xF4 then 0x8F else 0xBF) = true ∧ utf8.inRange c2 0x80 0xBF = true
              ∧ utf8.inRange c3 0x80 0xBF = true
          · simp only [hr, and_self, if_true] at hv ⊢
            rw [utf8.inRange_iff, utf8.inRange_iff, utf8.inRange_iff] at hr
            obtain ⟨⟨hlo, hhi⟩, hc2, hc3⟩ := hr
            have hlo' : 0x80 ≤ c1.toNat ∧ (c.toNat = 0xF0 → 0x90 ≤ c1.toNat) := by
              split_ifs at hlo <;> omega
            have hhi' : c1.toNat ≤ 0xBF := by
              split_ifs at hhi <;> omega
            refine ⟨[c, c1, c2, c3], tail, rfl, rfl, rfl, ?_, ?_⟩
            · intro x hx
              simp only [List.mem_cons, List.mem_singleton, List.not_mem_nil, or_false] at hx
              rcases hx with rfl | rfl | rfl | rfl <;> omega
            · have l3 : ¬ c.toNat % 8 * 262144 + c1.toNat % 64 * 4096 + c2.toNat % 64 * 64
                  + c3.toNat % 64 < 0x10000 := by omega
              have l1 : ¬ c.toNat % 8 * 262144 + c1.toNat % 64 * 4096 + c2.toNat % 64 * 64
                  + c3.toNat % 64 < 0x80 := by omega
              have l2 : ¬ c.toNat % 8 * 262144 + c1.toNat % 64 * 4096 + c2.toNat % 64 * 64
                  + c3.toNat % 64 < 0x800 := by omega
              have e1 : 0xF0 + (c.toNat % 8 * 262144 + c1.toNat % 64 * 4096 + c2.toNat % 64 * 64
                  + c3.toNat % 64) / 262144 = c.toNat := by omega
              have e2 : 0x80 + (c.toNat % 8 * 262144 + c1.toNat % 64 * 4096 + c2.toNat % 64 * 64
                  + c3.toNat % 64) / 4096 % 64 = c1.toNat := by omega
              have e3 : 0x80 + (c.toNat % 8 * 262144 + c1.toNat % 64 * 4096 + c2.toNat % 64 * 64
                  + c3.toNat % 64) / 64 % 64 = c2.toNat := by omega
              have e4 : 0x80 + (c.toNat % 8 * 262144 + c1.toNat % 64 * 4096 + c2.toNat % 64 * 64
                  + c3.toNat % 64) % 64 = c3.toNat := by omega
              simp only [utf8.EncodeRune, l1, l2, l3, if_true, if_false, e1, e2, e3, e4,
                Char.ofNat_toNat]
          · simp [hr] at hv
      · simp [h4] at hv

/-- The body of a string literal is read byte by byte over bytes of `0x80` or
more. -/
theorem json.parseStringBody_raw (raw : List Char) (hraw : ∀ x ∈ raw, 0x80 ≤ x.toNat) :
    ∀ (fuel : Nat) (tail acc : List Char),
      json.parseStringBody (fuel + raw.length) (raw ++ tail) acc
        = json.parseStringBody fuel tail (acc ++ raw) := by
  induction raw with
  | nil => intro fuel tail acc; simp
  | cons x raw ih =>
    intro fuel tail acc
    have hx : 0x80 ≤ x.toNat := hraw x (List.mem_cons_self _ _)
    have h1 : x ≠ '"' := by
      rintro rfl
      exact absurd hx (by decide)
    have h2 : x ≠ '\\' := by
      rintro rfl
      exact absurd hx (by decide)
    have h3 : ¬ x.toNat < 0x20 := by omega
    have hfuel : fuel + (x :: raw).length = (fuel + raw.length) + 1 := by
      simp only [List.length_cons]; omega
    rw [hfuel]
    simp only [List.cons_append, json.parseStringBody, json.readItem, h1, h2, h3, if_false,
      List.append_eq]
    rw [ih (fun y hy => hraw y (List.mem_cons_of_mem _ hy))]
    simp

theorem hex4_line_separator :
    hex4 '2' '0' '2' (hextable.getD (0x2028 % 16) '0') = some 0x2028
      ∧ hex4 '2' '0' '2' (hextable.getD (0x2029 % 16) '0') = some 0x2029 := by
  decide

/-- Reading the body of a string literal written by `encodeState.string` for a
valid UTF-8 string gives the bytes of the string back. -/
theorem json.parseStringBody_stringLoop (n : Nat) :
    ∀ (s acc rest : List Char) (fuel : Nat), s.length ≤ n → utf8.ValidString n s = true →
      (json.stringLoop n s).length + 1 ≤ fuel →
      json.parseStringBody fuel (json.stringLoop n s ++ '"' :: rest) acc
        = some (acc ++ s, rest) := by
  induction n with
  | zero =>
    intro s acc rest fuel hn _ hfuel
    have hs : s = [] := List.length_eq_zero.mp (by omega)
    subst hs
    obtain ⟨f, rfl⟩ : ∃ f, fuel = f + 1 := ⟨fuel - 1, by omega⟩
    simp [json.stringLoop, json.parseStringBody]
  | succ n ih =>
    intro s acc rest fuel hn hvalid hfuel
    cases s with
    | nil =>
      obtain ⟨f, rfl⟩ : ∃ f, fuel = f + 1 := ⟨fuel - 1, by omega⟩
      simp [json.stringLoop, json.parseStringBody]
    | cons c s =>
      have hlen : s.length ≤ n := by simpa using hn
      by_cases hc : c.toNat < 0x80
      · have hv : utf8.ValidString n s = true := by
          have hne : ¬ c.toNat = RuneError := by
            simp only [RuneError]; omega
          simpa [utf8.ValidString, utf8.DecodeRuneInString, hc, hne] using hvalid
        rw [json.stringLoop_cons n c s hc] at hfuel ⊢
        obtain ⟨x, xs, hx, hq⟩ := json.encoded_cons c
        have hread := json.readItem_encoded c (json.stringLoop n s ++ '"' :: rest) hc
        rw [hx] at hfuel hread
        obtain ⟨f, rfl⟩ : ∃ f, fuel = f + 1 := ⟨fuel - 1, by simp at hfuel; omega⟩
        rw [hx, List.append_assoc]
        simp only [List.cons_append] at hread ⊢
        simp only [json.parseStringBody, hq, if_false, hread]
        rw [ih s (acc ++ [c]) rest f hlen hv (by simp at hfuel; omega)]
        simp
      · have hwf : ¬ ((utf8.DecodeRuneInString (c :: s)).1 = RuneError
            ∧ (utf8.DecodeRuneInString (c :: s)).2 = 1) := by
          intro h
          simp [utf8.ValidString, h] at hvalid
        have hv : utf8.ValidString n (s.drop ((utf8.DecodeRuneInString (c :: s)).2 - 1))
            = true := by
          simpa [utf8.ValidString, hwf] using hvalid
        obtain ⟨raw, tail, hsplit, hrawlen, htail, hraw, henc⟩ :=
          utf8.DecodeRuneInString_wellFormed c s hc hwf
        have htake : (c :: s).take (utf8.DecodeRuneInString (c :: s)).2 = raw := by
          rw [← hrawlen]
          have h : List.take raw.length (raw ++ tail) = raw := List.take_left' rfl
          rw [← hsplit] at h
          exact h
        have htlen : tail.length ≤ n := by
          rw [htail, List.length_drop]
          omega
        rw [← htail] at hv
        have hloop : json.stringLoop (n + 1) (c :: s)
            = (if (utf8.DecodeRuneInString (c :: s)).1 = 0x2028
                  ∨ (utf8.DecodeRuneInString (c :: s)).1 = 0x2029 then
                "\\u202".toList
                  ++ [hextable.getD ((utf8.DecodeRuneInString (c :: s)).1 % 16) '0']
              else raw) ++ json.stringLoop n tail := by
          simp only [json.stringLoop, hc, if_false, hwf, htake, ← htail]
          split_ifs <;> rfl
        rw [hloop] at hfuel ⊢
        by_cases hsep : (utf8.DecodeRuneInString (c :: s)).1 = 0x2028
            ∨ (utf8.DecodeRuneInString (c :: s)).1 = 0x2029
        · rw [if_pos hsep] at hfuel ⊢
          obtain ⟨f, rfl⟩ : ∃ f, fuel = f + 1 := ⟨fuel - 1, by omega⟩
          have hhex : hex4 '2' '0' '2'
              (hextable.getD ((utf8.DecodeRuneInString (c :: s)).1 % 16) '0')
              = some (utf8.DecodeRuneInString (c :: s)).1 := by
            rcases hsep with h | h <;> rw [h]
            · exact hex4_line_separator.1
            · exact hex4_line_separator.2
          have hsur : ¬ (0xD800 ≤ (utf8.DecodeRuneInString (c :: s)).1
              ∧ (utf8.DecodeRuneInString (c :: s)).1 ≤ 0xDFFF) := by
            rcases hsep with h | h <;> rw [h] <;> omega
          have hstep : json.parseStringBody (f + 1)
              (("\\u202".toList
                  ++ [hextable.getD ((utf8.DecodeRuneInString (c :: s)).1 % 16) '0'])
                ++ json.stringLoop n tail ++ '"' :: rest) acc
              = json.parseStringBody f (json.stringLoop n tail ++ '"' :: rest) (acc ++ raw) := by
            have hform : ("\\u202".toList
                  ++ [hextable.getD ((utf8.DecodeRuneInString (c :: s)).1 % 16) '0'])
                ++ json.stringLoop n tail ++ '"' :: rest
                = '\\' :: 'u' :: '2' :: '0' :: '2'
                  :: hextable.getD ((utf8.DecodeRuneInString (c :: s)).1 % 16) '0'
                  :: (json.stringLoop n tail ++ '"' :: rest) := by
              simp
            rw [hform]
            have hbq : ¬ ('\\' : Char) = '"' := by decide
            simp only [json.parseStringBody, json.readItem, hbq, if_false, if_true, hhex, hsur,
              henc]
          rw [hstep, ih tail (acc ++ raw) rest f htlen hv (by simp at hfuel; omega), hsplit]
          simp
        · rw [if_neg hsep] at hfuel ⊢
          obtain ⟨f, rfl⟩ : ∃ f, fuel = f + raw.length :=
            ⟨fuel - raw.length, by simp at hfuel; omega⟩
          rw [List.append_assoc, json.parseStringBody_raw raw hraw,
            ih tail (acc ++ raw) rest f htlen hv (by simp at hfuel; omega), hsplit]
          simp

/-- Reading a string literal written by `encodeState.string` for a valid UTF-8
string gives the bytes of the string back, and the text after the literal. -/
theorem json.parseString_string (s rest : List Char)
    (hs : utf8.ValidString s.length s = true) :
    json.parseString (json.string s ++ rest) = some (s, rest) := by
  have h : json.string s ++ rest = '"' :: (json.stringLoop s.length s ++ '"' :: rest) := by
    simp [json.string]
  rw [h]
  simp only [json.parseString, if_true]
  rw [json.parseStringBody_stringLoop s.length s [] rest _ (le_refl _) hs (by simp)]
  simp

theorem utf8.ValidString_of_ascii_add (s : List Char) (hs : ∀ c ∈ s, c.toNat < 0x80) :
    ∀ n, utf8.ValidString (s.length + n) s = true := by
  induction s with
  | nil => intro n; cases n <;> rfl
  | cons c s ih =>
    intro n
    have hc : c.toNat < 0x80 := hs c (List.mem_cons_self _ _)
    have hne : ¬ c.toNat = RuneError := by
      simp only [RuneError]; omega
    have hlen : (c :: s).length + n = (s.length + n) + 1 := by
      simp only [List.length_cons]; omega
    rw [hlen]
    simpa [utf8.ValidString, utf8.DecodeRuneInString, hc, hne] using
      ih (fun d hd => hs d (List.mem_cons_of_mem _ hd)) n

/-- A string of bytes below `0x80` is valid UTF-8. -/
theorem utf8.ValidString_of_ascii (s : List Char) (hs : ∀ c ∈ s, c.toNat < 0x80) :
    utf8.ValidString s.length s = true :=
  utf8.ValidString_of_ascii_add s hs 0

theorem json.string_cons (s : List Char) :
    json.string s = '"' :: (json.stringLoop s.length s ++ ['"']) := by
  simp [json.string]

theorem json.parseMembers_more (fuel : Nat) (k v rest : List Char)
    (acc : List (List Char × List Char)) (c : Char)
    (hk : utf8.ValidString k.length k = true) (hv : utf8.ValidString v.length v = true) :
    json.parseMembers (fuel + 1) (json.string k ++ ':' :: (json.string v ++ ',' :: c :: rest)) acc
      = json.parseMembers fuel (c :: rest) (acc ++ [(k, v)]) := by
  simp only [json.parseMembers, json.parseString_string k _ hk, json.parseString_string v _ hv,
    if_true]

theorem json.parseMembers_last (fuel : Nat) (k v : List Char)
    (acc : List (List Char × List Char))
    (hk : utf8.ValidString k.length k = true) (hv : utf8.ValidString v.length v = true) :
    json.parseMembers (fuel + 1) (json.string k ++ ':' :: (json.string v ++ ['\x7d'])) acc
      = some (acc ++ [(k, v)]) := by
  simp only [json.parseMembers, json.parseString_string k _ hk, json.parseString_string v _ hv,
    if_true]

/-- Reading the text `json.Marshal` writes for a genesis document whose strings
are valid UTF-8 gives the document back. -/
theorem json.parseGenesis_Marshal (g : GenesisJSON)
    (h₁ : utf8.ValidString g.InitialTimestamp.length g.InitialTimestamp = true)
    (h₂ : utf8.ValidString g.InitialKey.length g.InitialKey = true)
    (h₃ : utf8.ValidString g.InitialChainID.length g.InitialChainID = true) :
    json.parseGenesis (json.Marshal g) = some g := by
  have hM : json.Marshal g = '\x7b' :: (json.string "initial_timestamp".toList
      ++ ':' :: (json.string g.InitialTimestamp ++ ',' :: '"' ::
        (json.stringLoop "initial_key".toList.length "initial_key".toList ++ ['"']
      ++ ':' :: (json.string g.InitialKey ++ ',' :: '"' ::
        (json.stringLoop "initial_chain_id".toList.length "initial_chain_id".toList ++ ['"']
      ++ ':' :: (json.string g.InitialChainID ++ ['\x7d'])))))) := by
    simp only [json.Marshal, List.append_assoc]
    rfl
  have k₁ : utf8.ValidString "initial_timestamp".toList.length "initial_timestamp".toList
      = true := by decide
  have k₂ : utf8.ValidString "initial_key".toList.length "initial_key".toList = true := by
    decide
  have k₃ : utf8.ValidString "initial_chain_id".toList.length "initial_chain_id".toList
      = true := by decide
  rw [json.parseGenesis, hM]
  simp only [json.parseObject, if_true]
  generalize hfuel : List.length _ + 1 = fuel
  obtain ⟨f, rfl⟩ : ∃ f, fuel = f + 3 := by
    refine ⟨fuel - 3, ?_⟩
    rw [← hfuel, json.string_cons]
    simp only [List.length_cons, List.length_append]
    omega
  rw [json.parseMembers_more _ _ _ _ _ _ k₁ h₁]
  have e₂ : '"' :: (json.stringLoop "initial_key".toList.length "initial_key".toList ++ ['"']
      ++ ':' :: (json.string g.InitialKey ++ ',' :: '"' ::
        (json.stringLoop "initial_chain_id".toList.length "initial_chain_id".toList ++ ['"']
      ++ ':' :: (json.string g.InitialChainID ++ ['\x7d']))))
      = json.string "initial_key".toList ++ ':' :: (json.string g.InitialKey ++ ',' :: '"' ::
        (json.stringLoop "initial_chain_id".toList.length "initial_chain_id".toList ++ ['"']
      ++ ':' :: (json.string g.InitialChainID ++ ['\x7d']))) := by
    rw [json.string_cons "initial_key".toList]
    rfl
  rw [e₂, json.parseMembers_more _ _ _ _ _ _ k₂ h₂]
  have e₃ : '"' :: (json.stringLoop "initial_chain_id".toList.length "initial_chain_id".toList
      ++ ['"'] ++ ':' :: (json.string g.InitialChainID ++ ['\x7d']))
      = json.string "initial_chain_id".toList
        ++ ':' :: (json.string g.InitialChainID ++ ['\x7d']) := by
    rw [json.string_cons "initial_chain_id".toList]
    rfl
  rw [e₃, json.parseMembers_last _ _ _ _ k₃ h₃]
  rfl

theorem digitChar_lt (k : Nat) (hk : k ≤ 9) : (Char.ofNat (48 + k)).toNat < 0x80 := by
  interval_cases k <;> decide

theorem hextable_mem : ∀ i : Fin 16, hextable.getD i.1 '0' ∈ hextable := by
  decide

theorem hextable_lt : ∀ c ∈ hextable, c.toNat < 0x80 := by
  decide

theorem hexVal_hextable : ∀ i : Fin 16, hexVal (hextable.getD i.1 '0') = some i.1 := by
  decide

/-- The digits `hex.EncodeToString` writes are lowercase hexadecimal digits. -/
theorem hex.EncodeToString_mem (bs : List UInt8) :
    ∀ c ∈ hex.EncodeToString bs, c ∈ hextable := by
  induction bs with
  | nil => simp [hex.EncodeToString]
  | cons v rest ih =>
    intro c hc
    simp only [hex.EncodeToString, List.mem_cons] at hc
    have hv : v.toNat < 256 := UInt8.toNat_lt v
    rcases hc with rfl | rfl | hc
    · exact hextable_mem ⟨v.toNat / 16, by omega⟩
    · exact hextable_mem ⟨v.toNat % 16, by omega⟩
    · exact ih c hc

/-- Decoding what `hex.EncodeToString` writes gives the bytes back. -/
theorem hex.DecodeString_EncodeToString (bs : List UInt8) :
    hex.DecodeString (hex.EncodeToString bs) = some bs := by
  induction bs with
  | nil => rfl
  | cons v rest ih =>
    have hv : v.toNat < 256 := UInt8.toNat_lt v
    have h1 := hexVal_hextable ⟨v.toNat / 16, by omega⟩
    have h2 := hexVal_hextable ⟨v.toNat % 16, by omega⟩
    simp only at h1 h2
    have e : UInt8.ofNat (v.toNat / 16 * 16 + v.toNat % 16) = v := by
      apply UInt8.ext
      rw [UInt8.toNat_ofNat_of_lt (by simp only [UInt8.size]; omega)]
      omega
    simp only [hex.EncodeToString, hex.DecodeString, h1, h2, ih, e]

/-- C7, as stated, fails in two ways.  For a timestamp after the year 9999: at
the first second of the year 10000 the document reads back with the timestamp
`10000-01-01T00:00:00`, which has 20 characters and not the shape
`YYYY-MM-DDTHH:MM:SS`.  For a public key that is not valid UTF-8: the key of
the one byte `0xff` is written as the escape of U+FFFD and reads back as the
three bytes of U+FFFD, not as the key. -/
theorem GenerateGenesisJSON_counterexample :
    (json.parseGenesis
        ({ sampleBIOS [] [] "a" with
            ShuffleBlock := { Time := { unixSec := 253402300800, nsec := 0, zoneOffset := 0 },
                              MerkleRoot := [] } }.GenerateGenesisJSON "EOS6ephemeral").data
      = some { InitialTimestamp := "10000-01-01T00:00:00".toList
               InitialKey := "EOS6ephemeral".toList
               InitialChainID := "0001abff".toList }
      ∧ isTimestampShape "10000-01-01T00:00:00".toList = false)
    ∧ (json.parseGenesis
        ((sampleBIOS [] [] "a").GenerateGenesisJSON (String.mk [Char.ofNat 0xff])).data
      = some { InitialTimestamp := "2018-04-01T00:00:00".toList
               InitialKey := [Char.ofNat 0xef, Char.ofNat 0xbf, Char.ofNat 0xbd]
               InitialChainID := "0001abff".toList }
      ∧ [Char.ofNat 0xef, Char.ofNat 0xbf, Char.ofNat 0xbd] ≠ [Char.ofNat 0xff]) := by
  decide

/-- C7, amended.  For every shuffle timestamp whose UTC year lies in 0..9999,
every public-key string that is valid UTF-8 and every chain id, reading the
JSON text of `GenerateGenesisJSON` back gives exactly the three strings written
under `initial_timestamp`, `initial_key` and `initial_chain_id`: the timestamp
text, which has the shape `YYYY-MM-DDTHH:MM:SS` and denotes, read as UTC, the
Unix second of the timestamp (whatever its location and its nanoseconds), the
public key, and the lowercase hexadecimal digits of the chain id, which decode
to the chain id. -/
theorem GenerateGenesisJSON_roundtrip (b : BIOS) (pubKey : String)
    (h0 : -62167219200 ≤ b.ShuffleBlock.Time.unixSec)
    (h1 : b.ShuffleBlock.Time.unixSec < 253402300800)
    (hkey : utf8.ValidString pubKey.data.length pubKey.data = true) :
    json.parseGenesis (b.GenerateGenesisJSON pubKey).data
        = some { InitialTimestamp := b.ShuffleBlock.Time.UTC.Format
                 InitialKey := pubKey.data
                 InitialChainID := hex.EncodeToString b.ChainID }
      ∧ parseTimestamp b.ShuffleBlock.Time.UTC.Format = some b.ShuffleBlock.Time.unixSec
      ∧ isTimestampShape b.ShuffleBlock.Time.UTC.Format = true
      ∧ hex.DecodeString (hex.EncodeToString b.ChainID) = some b.ChainID
      ∧ ∀ c ∈ hex.EncodeToString b.ChainID, c ∈ "0123456789abcdef".toList := by
  have hz : b.ShuffleBlock.Time.UTC.unixSec + b.ShuffleBlock.Time.UTC.zoneOffset
      = b.ShuffleBlock.Time.unixSec := by
    simp [Time.UTC]
  obtain ⟨Y, M, D, H, I, S, hY, hM1, hM, hD1, hD, hH, hI, hS, hsum, hfmt⟩ :=
    Time.Format_fields b.ShuffleBlock.Time.UTC (by rw [hz]; exact h0) (by rw [hz]; exact h1)
  have hD31 : D ≤ 31 := by
    have : daysInMonth Y M ≤ 31 := by
      unfold daysInMonth
      split_ifs <;> omega
    omega
  have hparse := parseTimestamp_fields Y M D H I S hY hM1 hM hD1 hD hH hI hS
  rw [← hfmt, hsum, hz] at hparse
  have hts : ∀ c ∈ b.ShuffleBlock.Time.UTC.Format, c.toNat < 0x80 := by
    intro c hc
    rw [hfmt] at hc
    simp only [List.mem_cons, List.mem_singleton, List.not_mem_nil, or_false] at hc
    rcases hc with rfl | rfl | rfl | rfl | rfl | rfl | rfl | rfl | rfl | rfl | rfl | rfl | rfl
      | rfl | rfl | rfl | rfl | rfl | rfl
    all_goals first
      | decide
      | exact digitChar_lt _ (by omega)
  have hcid : ∀ c ∈ hex.EncodeToString b.ChainID, c.toNat < 0x80 :=
    fun c hc => hextable_lt c (hex.EncodeToString_mem b.ChainID c hc)
  refine ⟨?_, hparse.1, hparse.2, hex.DecodeString_EncodeToString b.ChainID,
    hex.EncodeToString_mem b.ChainID⟩
  exact json.parseGenesis_Marshal
    { InitialTimestamp := b.ShuffleBlock.Time.UTC.Format
      InitialKey := pubKey.data
      InitialChainID := hex.EncodeToString b.ChainID }
    (utf8.ValidString_of_ascii _ hts) hkey (utf8.ValidString_of_ascii _ hcid)

/-- C7, amended, on the sample state (shuffle time 2018-04-01T00:00:00Z) and
the sample key. -/
theorem GenerateGenesisJSON_roundtrip_witness :
    json.parseGenesis ((sampleBIOS [] [] "a").GenerateGenesisJSON "EOS6ephemeral").data
        = some { InitialTimestamp := (sampleBIOS [] [] "a").ShuffleBlock.Time.UTC.Format
                 InitialKey := "EOS6ephemeral".toList
                 InitialChainID := hex.EncodeToString (sampleBIOS [] [] "a").ChainID }
      ∧ (sampleBIOS [] [] "a").ShuffleBlock.Time.UTC.Format = "2018-04-01T00:00:00".toList
      ∧ hex.EncodeToString (sampleBIOS [] [] "a").ChainID = "0001abff".toList :=
  ⟨(GenerateGenesisJSON_roundtrip (sampleBIOS [] [] "a") "EOS6ephemeral" (by decide)
      (by decide) (by decide)).1, by decide, by decide⟩

end Bios
